import Mathlib

/-!
Shallow embedding of the climatology aggregation and record-tracking core of
the weather-wiki-export repository, together with proofs checking the
natural-language specification against it.

Conventions of the embedding:
* JavaScript finite numbers are modelled as rationals (`ℚ`); `NaN`/`Infinity`
  are not representable, and the code-level `Number.isFinite` guards therefore
  become trivially true on `ℚ` values while `null`/string cells are modelled
  explicitly by the `JSVal` type.
* Fallible operations return `Option`.
* The JS `Number(string)` conversion is modelled on the decimal literals that
  occur in this code base (optional sign, digits, optional fractional part,
  commas already removed by the callers); every other string is mapped to
  `none` (the code only ever asks `Number.isFinite` afterwards, so `none`
  plays the role of `NaN`).
-/

/-- A spreadsheet / JSON cell value as it reaches the helper functions:
a string, a finite number, or `null` (JS `undefined` from an out-of-range
array read is handled at the read sites, where the code applies `x ?? ""`). -/
inductive JSVal where
  | str (s : String)
  | num (q : ℚ)
  | null
deriving DecidableEq, Repr

/-- Whitespace trim on a character list; models the JS `String.prototype.trim`
(the strings this code trims are ASCII, where the two whitespace notions
agree).  String functions are modelled on `List Char` throughout because the
character list of a string literal is directly computable. -/
def trimL (l : List Char) : List Char :=
  ((l.dropWhile Char.isWhitespace).reverse.dropWhile Char.isWhitespace).reverse

/-- Models the JS `s.replace(/,/g, "")` used before numeric parsing. -/
def removeCommas (l : List Char) : List Char :=
  l.filter (fun c => c ≠ ',')

/-- Digits value of a char list read in base 10, `'0'` = 48.
Used to model the numeric value JS assigns to a digit string. -/
def digitsVal (l : List Char) : ℚ :=
  l.foldl (fun a c => 10 * a + ((c.toNat : ℚ) - 48)) 0

/-- Digits value as a natural number (for date components). -/
def digitsValN (l : List Char) : ℕ :=
  l.foldl (fun a c => 10 * a + (c.toNat - 48)) 0

/-- Parse an unsigned decimal literal (digits, optionally a point and more
digits), the forms `Number` accepts apart from sign: `"12"`, `"12."`,
`"12.5"`, `".5"`.  A bare `"."` or any other character is `NaN` (`none`). -/
def parseDecimal (cs : List Char) : Option ℚ :=
  let ip := cs.takeWhile Char.isDigit
  let rest := cs.dropWhile Char.isDigit
  match rest with
  | [] => if ip.isEmpty then none else some (digitsVal ip)
  | '.' :: fr =>
      if fr.all Char.isDigit ∧ (ip ≠ [] ∨ fr ≠ []) then
        some (digitsVal ip + digitsVal fr / (10 : ℚ) ^ fr.length)
      else none
  | _ => none

/-- Model of the JS `Number(string)` conversion on the inputs this code base
produces: surrounding whitespace is ignored, the empty string is `0`, an
optional sign precedes a decimal literal; anything else is `NaN`, returned
as `none`.  (Exponent, hex and `Infinity` literals never occur here.) -/
def jsNumberL (l0 : List Char) : Option ℚ :=
  match trimL l0 with
  | [] => some 0
  | '-' :: r => (parseDecimal r).map (fun q => -q)
  | '+' :: r => parseDecimal r
  | l => parseDecimal l

/-- The function `jsNumberL` applied to a string. -/
def jsNumber (s : String) : Option ℚ :=
  jsNumberL s.toList

/-- From src/app/helpers/computeHelpers.ts: `toNum` coerces a cell with
`typeof x === "number" ? x : Number(String(x ?? "").trim())`.  Note that a
`null` cell (and an `undefined` out-of-range read) becomes `Number("") = 0`,
not `null`. -/
def toNum (x : JSVal) : Option ℚ :=
  match x with
  | .num q => some q
  | .null => some 0
  | .str s => jsNumber s

/-- Models `toNum(vals[idx])` where the index may be an out-of-range read
(JS `undefined`, which `toNum` also turns into `Number("") = 0`). -/
def toNumCell (c : Option JSVal) : Option ℚ :=
  match c with
  | none => some 0
  | some v => toNum v

/-- From src/app/helpers/computeHelpers.ts: `asNum` returns `null` for a
`null` input, the number itself when finite, and otherwise parses the string
with commas removed. -/
def asNum (x : JSVal) : Option ℚ :=
  match x with
  | .null => none
  | .num q => some q
  | .str s => jsNumberL (removeCommas s.toList)

/-- From src/app/helpers/computeHelpers.ts: `round2` is
`Math.round(n * 100) / 100` with `-0` normalised (no `-0` exists in `ℚ`).
JS `Math.round` rounds half-up, i.e. `⌊x + 1/2⌋`. -/
def round2 (q : ℚ) : ℚ :=
  ((⌊q * 100 + 1 / 2⌋ : ℤ) : ℚ) / 100

-- --------------------------------------------------------------------------
-- Record merge (src/app/lib/climatology.ts, mergeMax / mergeMin)
-- --------------------------------------------------------------------------

/-- From src/app/types/climatology.types.ts:
`RecordPair = [number | null, string | null]`. -/
abbrev RecordPair := Option ℚ × Option String

/-- From src/app/lib/climatology.ts (inside mergeMax / mergeMin):
`(d) => typeof d === "string" && /^\s*\d{4}\s*$/.test(d)` — the string is,
up to surrounding whitespace, exactly four ASCII digits. -/
def looksLikeYearOnly (s : String) : Bool :=
  (trimL s.toList).length == 4 && (trimL s.toList).all Char.isDigit

/-- JS truthiness of a `string | null` value: `null` and `""` are falsy. -/
def jsTruthy (o : Option String) : Bool :=
  match o with
  | none => false
  | some s => !(s == "")

/-- Lifts `looksLikeYearOnly` to a nullable date the way the JS call site
behaves (`looksLikeYearOnly(null) = false` via the `typeof` check). -/
def optYearOnly (o : Option String) : Bool :=
  match o with
  | none => false
  | some s => looksLikeYearOnly s

/-- The shared tie-break condition of mergeMax / mergeMin:
`iDate != null && (!eDate || looksLikeYearOnly(eDate))`. -/
def preferIncomingDate (eDate iDate : Option String) : Bool :=
  iDate.isSome && (!(jsTruthy eDate) || optYearOnly eDate)

/-- From src/app/lib/climatology.ts, `mergeMax`: merge a persisted max-type
record with an incoming candidate, keeping the larger value; on equal values
the incoming date is preferred only when the existing date is falsy or a bare
four-digit year. -/
def mergeMax (existing incoming : RecordPair) : RecordPair :=
  let eVal := existing.1
  let eDate := existing.2
  let iVal := incoming.1
  let iDate := incoming.2
  match iVal with
  | none => (eVal, eDate)
  | some iv =>
    match eVal with
    | none => (some iv, iDate)
    | some ev =>
      if iv > ev then (some iv, iDate)
      else if iv < ev then (some ev, eDate)
      else if preferIncomingDate eDate iDate then (some iv, iDate)
      else (some ev, eDate)

/-- From src/app/lib/climatology.ts, `mergeMin`: as `mergeMax` with the
comparison reversed (smaller value wins). -/
def mergeMin (existing incoming : RecordPair) : RecordPair :=
  let eVal := existing.1
  let eDate := existing.2
  let iVal := incoming.1
  let iDate := incoming.2
  match iVal with
  | none => (eVal, eDate)
  | some iv =>
    match eVal with
    | none => (some iv, iDate)
    | some ev =>
      if iv < ev then (some iv, iDate)
      else if iv > ev then (some ev, eDate)
      else if preferIncomingDate eDate iDate then (some iv, iDate)
      else (some ev, eDate)

-- --------------------------------------------------------------------------
-- Percent normalizer (src/app/lib/climatology.ts, parsePercent)
-- --------------------------------------------------------------------------

/-- From src/app/lib/climatology.ts, `parsePercent`: accepts numbers,
whole percentages and strings like `"12%"`, returning a fraction or `null`.
A trailing-`%` string is always divided by 100; a bare numeric value is
divided by 100 exactly when `1 < n ≤ 100`. -/
def parsePercent (x : JSVal) : Option ℚ :=
  match x with
  | .null => none
  | .str s0 =>
    let s := trimL s0.toList
    if s.getLast? = some '%' then
      match jsNumberL (removeCommas s.dropLast) with
      | some n => some (n / 100)
      | none => none
    else
      match jsNumberL (removeCommas s) with
      | some n => some (if 1 < n ∧ n ≤ 100 then n / 100 else n)
      | none => none
  | .num q =>
      some (if 1 < q ∧ q ≤ 100 then q / 100 else q)

-- --------------------------------------------------------------------------
-- Window builder (src/app/lib/climatology.ts, buildWindows)
-- --------------------------------------------------------------------------

/-- Arguments of `buildWindows` (years are integers in this system). -/
structure BWArgs where
  minYear : ℤ
  maxYear : ℤ
  baseStartYear : ℤ
  windowYears : ℤ
  stepYears : ℤ
deriving DecidableEq, Repr

/-- The initial loop counter of `buildWindows`:
`Math.ceil((minYear - baseStartYear) / stepYears)`, reset to 0 when the
division is not finite (i.e. when `stepYears = 0`). -/
def bwInitK (a : BWArgs) : ℤ :=
  if a.stepYears = 0 then 0
  else ⌈((a.minYear - a.baseStartYear : ℤ) : ℚ) / (a.stepYears : ℚ)⌉

/-- One-iteration-at-a-time runner for the unbounded `for (;;)` loop of
`buildWindows`, made total with explicit fuel: `none` means the loop has not
broken within `fuel` iterations; `some out` is the value returned by a
`break`.  Each iteration computes `start = baseStartYear + k * stepYears`
and `end = start + (windowYears - 1)`, breaks when `start > maxYear`,
appends the window when `end <= maxYear`, and breaks (returning the list)
when more than 50 windows have been accumulated. -/
def buildWindowsGo (a : BWArgs) :
    ℕ → ℤ → List (ℤ × ℤ) → Option (List (ℤ × ℤ))
  | 0, _, _ => none
  | fuel + 1, k, out =>
    let start := a.baseStartYear + k * a.stepYears
    let stop := start + (a.windowYears - 1)
    if start > a.maxYear then some out
    else
      let out2 := if stop ≤ a.maxYear then out ++ [(start, stop)] else out
      if out2.length > 50 then some out2
      else buildWindowsGo a fuel (k + 1) out2

/-- From src/app/lib/climatology.ts, `buildWindows`, as a fueled computation:
`some windows` exactly when the JS loop terminates within `fuel` iterations
with that result. -/
def buildWindowsFuel (a : BWArgs) (fuel : ℕ) : Option (List (ℤ × ℤ)) :=
  buildWindowsGo a fuel (bwInitK a) []

-- --------------------------------------------------------------------------
-- Wettest-monthly-total year helpers
-- --------------------------------------------------------------------------

/-- The fields of `YearMonthAgg` (src/app/types/climatology.types.ts) read by
`pickYearOfMaxMonthlyTotal`: the year and the monthly precipitation total.
The other per-month statistics are irrelevant to the picked year and elided. -/
structure YearMonthAgg where
  year : ℚ
  precip : Option ℚ
deriving DecidableEq, Repr

/-- From src/app/lib/climatology.ts, `pickYearOfMaxMonthlyTotal`: scan the
bucket for the largest finite `precip`, remembering its year; on a value tie
keep the earlier year (`r.year < bestYear`). -/
def pickYearStep (st : Option ℚ × Option ℚ) (r : YearMonthAgg) :
    Option ℚ × Option ℚ :=
  match r.precip with
  | none => st
  | some p =>
    match st.1 with
    | none => (some p, some r.year)
    | some bv =>
      if p > bv then (some p, some r.year)
      else
        match st.2 with
        | some byr =>
            if p = bv ∧ r.year < byr then (st.1, some r.year) else st
        | none => st

/-- The scan of `pickYearOfMaxMonthlyTotal` over its
`(bestVal, bestYear)` state. -/
def pickYearOfMaxMonthlyTotal (bucket : List YearMonthAgg) : Option ℚ :=
  (bucket.foldl pickYearStep ((none, none) : Option ℚ × Option ℚ)).2

/-- The fields of `MonthlyAggRecord`
(src/app/types/climatology-from-aggregates.types.ts) read by
`wettestMonthlyTotal`: the year and the monthly precipitation total. -/
structure MonthlyAggRecord where
  year : ℚ
  totalPrecip : Option ℚ
deriving DecidableEq, Repr

/-- From src/app/lib/computeClimatology.ts, `wettestMonthlyTotal`: scan for
the strictly largest finite `totalPrecip` (no tie handling), rounding the
total; the year kept is that of the first record attaining the maximum in
input order. -/
def wettestStep (st : Option ℚ × Option ℚ) (r : MonthlyAggRecord) :
    Option ℚ × Option ℚ :=
  match r.totalPrecip with
  | none => st
  | some t =>
    match st.1 with
    | none => (some t, some r.year)
    | some bv => if t > bv then (some t, some r.year) else st

/-- The scan of `wettestMonthlyTotal` over its `(bestTotal, bestYear)`
state, followed by the rounding of the best total. -/
def wettestMonthlyTotal (records : List MonthlyAggRecord) :
    Option ℚ × Option ℚ :=
  let best := records.foldl wettestStep ((none, none) : Option ℚ × Option ℚ)
  (match best.1 with
   | some t => some (round2 t)
   | none => none, best.2)

-- --------------------------------------------------------------------------
-- Date model (moment strict "YYYY-MM-DD" parse, "Do MMM YYYY" format)
-- --------------------------------------------------------------------------

/-- The decimal digit character for `n < 10`. -/
def digitChar (n : ℕ) : Char := Char.ofNat (48 + n)

/-- Decimal digit string of a natural number, with explicit fuel so that the
definition is structural and evaluates in the kernel; `natDigits` always
supplies sufficient fuel. -/
def natDigitsAux : ℕ → ℕ → List Char
  | 0, _ => []
  | fuel + 1, n =>
    if n < 10 then [digitChar n]
    else natDigitsAux fuel (n / 10) ++ [digitChar (n % 10)]

/-- Decimal digit string of a natural number (`123 ↦ "123"`). -/
def natDigits (n : ℕ) : List Char := natDigitsAux (n + 1) n

/-- Year formatted by moment's `YYYY`: zero-padded to four digits. -/
def pad4 (y : ℕ) : List Char :=
  List.replicate (4 - (natDigits y).length) '0' ++ natDigits y

/-- The ordinal suffix moment's `Do` appends to a day number:
`11..13 ↦ th`, otherwise by last digit (`1 ↦ st`, `2 ↦ nd`, `3 ↦ rd`). -/
def ordSuffix (d : ℕ) : List Char :=
  if d % 100 / 10 = 1 then ['t', 'h']
  else
    match d % 10 with
    | 1 => ['s', 't']
    | 2 => ['n', 'd']
    | 3 => ['r', 'd']
    | _ => ['t', 'h']

/-- moment's `MMM` month abbreviation (1-based); months outside 1..12 never
reach the formatter because the strict ISO parse rejects them. -/
def monAbbrev (m : ℕ) : List Char :=
  match m with
  | 1 => ['J', 'a', 'n']
  | 2 => ['F', 'e', 'b']
  | 3 => ['M', 'a', 'r']
  | 4 => ['A', 'p', 'r']
  | 5 => ['M', 'a', 'y']
  | 6 => ['J', 'u', 'n']
  | 7 => ['J', 'u', 'l']
  | 8 => ['A', 'u', 'g']
  | 9 => ['S', 'e', 'p']
  | 10 => ['O', 'c', 't']
  | 11 => ['N', 'o', 'v']
  | 12 => ['D', 'e', 'c']
  | _ => []

/-- Gregorian leap year, as used by moment. -/
def isLeap (y : ℕ) : Bool :=
  y % 4 == 0 && (y % 100 != 0 || y % 400 == 0)

/-- Days in a month of the proleptic Gregorian calendar. -/
def daysInMonth (y m : ℕ) : ℕ :=
  match m with
  | 2 => if isLeap y then 29 else 28
  | 4 => 30
  | 6 => 30
  | 9 => 30
  | 11 => 30
  | _ => 31

/-- Model of `moment.tz(s, "YYYY-MM-DD", true, tz)` validity and field
extraction: the strict parse accepts exactly ten characters
`dddd-dd-dd` denoting a real calendar date, and the timezone does not
affect the calendar fields.  Returns `(year, month, day)`. -/
def parseIsoDateL (l : List Char) : Option (ℕ × ℕ × ℕ) :=
  match l with
  | [y1, y2, y3, y4, '-', m1, m2, '-', d1, d2] =>
    if ([y1, y2, y3, y4, m1, m2, d1, d2].all Char.isDigit) then
      let y := digitsValN [y1, y2, y3, y4]
      let m := digitsValN [m1, m2]
      let d := digitsValN [d1, d2]
      if 1 ≤ m ∧ m ≤ 12 ∧ 1 ≤ d ∧ d ≤ daysInMonth y m then some (y, m, d)
      else none
    else none
  | _ => none

/-- The function `parseIsoDateL` applied to a string. -/
def parseIsoDate (s : String) : Option (ℕ × ℕ × ℕ) :=
  parseIsoDateL s.toList

/-- moment's `format("Do MMM YYYY")` on calendar fields `(y, m, d)`,
e.g. `(2020, 7, 1) ↦ "1st Jul 2020"`, as a character list. -/
def fmtPrettyL (x : ℕ × ℕ × ℕ) : List Char :=
  natDigits x.2.2 ++ ordSuffix x.2.2 ++ [' '] ++ monAbbrev x.2.1 ++ [' '] ++ pad4 x.1

/-- moment's `format("Do MMM YYYY")` as a string. -/
def fmtPretty (x : ℕ × ℕ × ℕ) : String := String.mk (fmtPrettyL x)

/-- From src/app/helpers/dateHelpers.ts, `fmtIsoToPrettyDate`: `null` when
the strict ISO parse fails, otherwise the pretty-formatted date.  The
timezone argument does not affect the calendar fields. -/
def fmtIsoToPrettyDate (isoDate : String) (tz : String) : Option String :=
  (parseIsoDate isoDate).map fmtPretty

/-- From src/app/lib/climatology.ts, `fmtRecordDate`: formats without a
validity check, so an unparseable ISO date yields moment's literal
`"Invalid date"` string rather than `null`. -/
def fmtRecordDate (isoDate : String) (tz : String) : String :=
  match parseIsoDate isoDate with
  | some x => fmtPretty x
  | none => "Invalid date"

/-- Inverse of `monAbbrev` on the twelve abbreviations. -/
def monFromAbbrev (l : List Char) : Option ℕ :=
  if l = ['J', 'a', 'n'] then some 1
  else if l = ['F', 'e', 'b'] then some 2
  else if l = ['M', 'a', 'r'] then some 3
  else if l = ['A', 'p', 'r'] then some 4
  else if l = ['M', 'a', 'y'] then some 5
  else if l = ['J', 'u', 'n'] then some 6
  else if l = ['J', 'u', 'l'] then some 7
  else if l = ['A', 'u', 'g'] then some 8
  else if l = ['S', 'e', 'p'] then some 9
  else if l = ['O', 'c', 't'] then some 10
  else if l = ['N', 'o', 'v'] then some 11
  else if l = ['D', 'e', 'c'] then some 12
  else none

/-- Model of moment's parse of a `"Do MMM YYYY"` string back into calendar
fields, faithful on the formatter's own outputs (the only strings the code
ever feeds back, via the tie-break comparison): leading day digits, a
two-character ordinal suffix, a space, a three-letter month abbreviation,
a space, year digits. -/
def parsePrettyL (l : List Char) : Option (ℕ × ℕ × ℕ) :=
  match l.takeWhile Char.isDigit, l.dropWhile Char.isDigit with
  | [], _ => none
  | ds, _s1 :: _s2 :: ' ' :: a :: b :: c :: ' ' :: yds =>
    match monFromAbbrev [a, b, c] with
    | some m =>
      if yds ≠ [] ∧ yds.all Char.isDigit then
        some (digitsValN yds, m, digitsValN ds)
      else none
    | none => none
  | _, _ => none

/-- Chronological (lexicographic) order on `(year, month, day)` fields. -/
def ymdLex (x y : ℕ × ℕ × ℕ) : Prop :=
  x.1 < y.1 ∨ (x.1 = y.1 ∧ (x.2.1 < y.2.1 ∨ (x.2.1 = y.2.1 ∧ x.2.2 < y.2.2)))

instance (x y : ℕ × ℕ × ℕ) : Decidable (ymdLex x y) := by
  unfold ymdLex; infer_instance

/-- Model of `moment(a, "Do MMM YYYY").isBefore(moment(b, "Do MMM YYYY"))`:
chronological comparison when both strings parse, `false` otherwise
(moment comparisons involving an invalid date return `false`). -/
def momentPrettyIsBefore (a b : String) : Bool :=
  match parsePrettyL a.toList, parsePrettyL b.toList with
  | some x, some y => decide (ymdLex x y)
  | _, _ => false

-- --------------------------------------------------------------------------
-- Intra-month record pick (src/app/helpers/dateHelpers.ts)
-- --------------------------------------------------------------------------

/-- From src/app/types/open-meteo.type.ts:
`OpenMeteoRow = Array<string | number | null>` whose element 0 is the ISO
date; the JS read `String(r?.[0] ?? "")` is modelled by storing that cell
already coerced to a string, and `r.slice(1)` is `vals`. -/
structure OpenMeteoRow where
  iso : String
  vals : List JSVal
deriving DecidableEq, Repr

/-- Loop body of `pickMaxWithDate` over the running
`(bestVal, bestDate)` state. -/
def pickMaxStep (tz : String) (i : ℕ) (requirePositive : Bool)
    (st : Option ℚ × Option String) (r : OpenMeteoRow) :
    Option ℚ × Option String :=
  let iso := String.mk (trimL r.iso.toList)
  if iso = "" then st
  else
    match toNumCell (r.vals.get? i) with
    | none => st
    | some n =>
      if requirePositive && !(decide (n > 0)) then st
      else
        match st.1 with
        | none => (some n, fmtIsoToPrettyDate iso tz)
        | some bv =>
          if n > bv then (some n, fmtIsoToPrettyDate iso tz)
          else
            match st.2 with
            | some bd =>
              if n = bv ∧ bd ≠ "" then
                match fmtIsoToPrettyDate iso tz with
                | some cand =>
                  if cand ≠ "" ∧ momentPrettyIsBefore cand bd then
                    (some bv, some cand)
                  else st
                | none => st
              else st
            | none => st

/-- From src/app/helpers/dateHelpers.ts, `pickMaxWithDate`: scan the rows for
the largest `toNum`-coerced value at daily-variable index `idx`
(optionally requiring it to be positive), tracking the pretty-formatted
date and, on a value tie, keeping the chronologically earliest date. -/
def pickMaxWithDate (rows : List OpenMeteoRow) (tz : String)
    (idx : Option ℕ) (requirePositive : Bool) : Option ℚ × Option String :=
  match idx with
  | none => (none, none)
  | some i => rows.foldl (pickMaxStep tz i requirePositive) (none, none)

/-- Loop body of `pickMinWithDate`. -/
def pickMinStep (tz : String) (i : ℕ)
    (st : Option ℚ × Option String) (r : OpenMeteoRow) :
    Option ℚ × Option String :=
  let iso := String.mk (trimL r.iso.toList)
  if iso = "" then st
  else
    match toNumCell (r.vals.get? i) with
    | none => st
    | some n =>
      match st.1 with
      | none => (some n, fmtIsoToPrettyDate iso tz)
      | some bv =>
        if n < bv then (some n, fmtIsoToPrettyDate iso tz)
        else
          match st.2 with
          | some bd =>
            if n = bv ∧ bd ≠ "" then
              match fmtIsoToPrettyDate iso tz with
              | some cand =>
                if cand ≠ "" ∧ momentPrettyIsBefore cand bd then
                  (some bv, some cand)
                else st
              | none => st
            else st
          | none => st

/-- From src/app/helpers/dateHelpers.ts, `pickMinWithDate`: dual of
`pickMaxWithDate` (no positivity filter). -/
def pickMinWithDate (rows : List OpenMeteoRow) (tz : String)
    (idx : Option ℕ) : Option ℚ × Option String :=
  match idx with
  | none => (none, none)
  | some i => rows.foldl (pickMinStep tz i) (none, none)

-- --------------------------------------------------------------------------
-- Window-scoped strict pickers (src/app/lib/climatology.ts)
-- --------------------------------------------------------------------------

/-- From src/app/types/climatology.types.ts: `DailyRecord`. -/
structure DailyRecord where
  value : ℚ
  isoDate : String
deriving DecidableEq, Repr

/-- From src/app/lib/climatology.ts, `yearFromIso`:
`Number(String(isoDate).slice(0, 4))`, `null` when not finite
(note `Number("") = 0`, so an empty date yields year 0). -/
def yearFromIso (isoDate : String) : Option ℚ :=
  jsNumberL (isoDate.toList.take 4)

/-- The skip test `startYear != null && y != null && y < startYear`. -/
def belowStart (startYear y : Option ℚ) : Bool :=
  match startYear, y with
  | some sy, some yv => yv < sy
  | _, _ => false

/-- The skip test `endYear != null && y != null && y > endYear`. -/
def aboveEnd (endYear y : Option ℚ) : Bool :=
  match endYear, y with
  | some ey, some yv => yv > ey
  | _, _ => false

/-- From src/app/lib/climatology.ts, `pickMaxStrict`: best positive/any
value within the optional year bounds, returned rounded together with the
formatted date (note `fmtRecordDate` never returns `null`). -/
def pickMaxStrictStep (startYear endYear : Option ℚ)
    (requirePositive : Bool) (b : Option DailyRecord) (r : DailyRecord) :
    Option DailyRecord :=
  if requirePositive && !(decide (r.value > 0)) then b
  else if belowStart startYear (yearFromIso r.isoDate) then b
  else if aboveEnd endYear (yearFromIso r.isoDate) then b
  else
    match b with
    | none => some r
    | some br => if r.value > br.value then some r else b

/-- The scan of `pickMaxStrict` over the best record seen so far. -/
def pickMaxStrict (recs : List DailyRecord) (tz : String)
    (startYear endYear : Option ℚ) (requirePositive : Bool) : RecordPair :=
  if recs.isEmpty then (none, none)
  else
    match recs.foldl (pickMaxStrictStep startYear endYear requirePositive)
        (none : Option DailyRecord) with
    | none => (none, none)
    | some b => (some (round2 b.value), some (fmtRecordDate b.isoDate tz))

/-- From src/app/lib/climatology.ts, `pickMinStrict`: dual of
`pickMaxStrict` without the positivity filter. -/
def pickMinStrictStep (startYear endYear : Option ℚ)
    (b : Option DailyRecord) (r : DailyRecord) : Option DailyRecord :=
  if belowStart startYear (yearFromIso r.isoDate) then b
  else if aboveEnd endYear (yearFromIso r.isoDate) then b
  else
    match b with
    | none => some r
    | some br => if r.value < br.value then some r else b

/-- The scan of `pickMinStrict` over the best record seen so far. -/
def pickMinStrict (recs : List DailyRecord) (tz : String)
    (startYear endYear : Option ℚ) : RecordPair :=
  if recs.isEmpty then (none, none)
  else
    match recs.foldl (pickMinStrictStep startYear endYear)
        (none : Option DailyRecord) with
    | none => (none, none)
    | some b => (some (round2 b.value), some (fmtRecordDate b.isoDate tz))

-- --------------------------------------------------------------------------
-- Specification-side vocabulary used to state the properties
-- --------------------------------------------------------------------------

/-- The candidate contributed by one row to the intra-month pick, under the
code's own coercions: the row is skipped when its (trimmed) date cell is
empty, when `toNum` of the selected cell is `NaN`, or when positivity is
required and fails; otherwise it contributes its coerced value together with
the parsed calendar date (the date component is meaningful for rows whose
date actually parses, which the picker theorems hypothesise). -/
def rowCand (i : ℕ) (requirePositive : Bool) (r : OpenMeteoRow) :
    Option (ℚ × (ℕ × ℕ × ℕ)) :=
  if trimL r.iso.toList = [] then none
  else
    match toNumCell (r.vals.get? i), parseIsoDateL (trimL r.iso.toList) with
    | some n, some x =>
        if requirePositive && !(decide (n > 0)) then none else some (n, x)
    | _, _ => none

/-- All candidates of a batch of rows, in input order. -/
def rowCands (i : ℕ) (requirePositive : Bool) (rows : List OpenMeteoRow) :
    List (ℚ × (ℕ × ℕ × ℕ)) :=
  rows.filterMap (rowCand i requirePositive)

/-- Loop invariant of `pickMaxWithDate`: the state is empty exactly when no
candidate has been seen, and otherwise holds the largest candidate value
together with the pretty-formatted chronologically earliest date among the
candidates attaining it. -/
def pickMaxInv (cs : List (ℚ × (ℕ × ℕ × ℕ)))
    (st : Option ℚ × Option String) : Prop :=
  (cs = [] ∧ st = (none, none)) ∨
  (∃ V M, st = (some V, some (fmtPretty M)) ∧ 1 ≤ M.2.1 ∧ M.2.1 ≤ 12 ∧
    (V, M) ∈ cs ∧ (∀ c ∈ cs, c.1 ≤ V) ∧ (∀ c ∈ cs, c.1 = V → ¬ ymdLex c.2 M))

/-- Loop invariant of `pickMinWithDate` (dual of `pickMaxInv`). -/
def pickMinInv (cs : List (ℚ × (ℕ × ℕ × ℕ)))
    (st : Option ℚ × Option String) : Prop :=
  (cs = [] ∧ st = (none, none)) ∨
  (∃ V M, st = (some V, some (fmtPretty M)) ∧ 1 ≤ M.2.1 ∧ M.2.1 ≤ 12 ∧
    (V, M) ∈ cs ∧ (∀ c ∈ cs, V ≤ c.1) ∧ (∀ c ∈ cs, c.1 = V → ¬ ymdLex c.2 M))

/-- The finite `(precip, year)` pairs of a bucket, in input order. -/
def precipCands (bucket : List YearMonthAgg) : List (ℚ × ℚ) :=
  bucket.filterMap (fun r => r.precip.map (fun p => (p, r.year)))

/-- Loop invariant of `pickYearOfMaxMonthlyTotal`: empty state iff no finite
precipitation seen, otherwise the maximum with the earliest year among the
records attaining it. -/
def pickYearInv (cs : List (ℚ × ℚ)) (st : Option ℚ × Option ℚ) : Prop :=
  (cs = [] ∧ st = (none, none)) ∨
  (∃ T Y, st = (some T, some Y) ∧ (T, Y) ∈ cs ∧
    (∀ c ∈ cs, c.1 ≤ T) ∧ (∀ c ∈ cs, c.1 = T → Y ≤ c.2))

/-- Loop invariant of `wettestMonthlyTotal`: empty state iff no finite total
seen, otherwise the maximum total with the year of the FIRST record that
attained it in input order (no earliest-year tie-break). -/
def wettestInv (processed : List MonthlyAggRecord)
    (st : Option ℚ × Option ℚ) : Prop :=
  (st = (none, none) ∧ ∀ r ∈ processed, r.totalPrecip = none) ∨
  (∃ T Y, st = (some T, some Y) ∧
    (∀ r ∈ processed, ∀ t ∈ r.totalPrecip, t ≤ T) ∧
    ∃ l1 rr l2, processed = l1 ++ rr :: l2 ∧ rr.totalPrecip = some T ∧
      rr.year = Y ∧ (∀ r2 ∈ l1, ∀ t2 ∈ r2.totalPrecip, t2 < T))

-- --------------------------------------------------------------------------
-- Lemmas about the record merge
-- --------------------------------------------------------------------------

theorem preferIncomingDate_iff (ed id : Option String) :
    preferIncomingDate ed id = true ↔
      id.isSome ∧ (ed = none ∨ ed = some "" ∨ optYearOnly ed = true) := by
  cases id <;> cases ed <;>
    simp [preferIncomingDate, jsTruthy, optYearOnly]

theorem mergeMax_value_mono (e i : RecordPair) (v : ℚ) (hv : e.1 = some v) :
    ∃ w, (mergeMax e i).1 = some w ∧ v ≤ w := by
  obtain ⟨eV, eD⟩ := e
  obtain ⟨iV, iD⟩ := i
  simp only at hv
  subst hv
  cases iV with
  | none => exact ⟨v, rfl, le_refl v⟩
  | some iv =>
    simp only [mergeMax]
    by_cases h1 : iv > v
    · exact ⟨iv, by simp [h1], le_of_lt h1⟩
    · by_cases h2 : iv < v
      · exact ⟨v, by simp [h1, h2], le_refl v⟩
      · have hvv : iv = v := le_antisymm (not_lt.mp h1) (not_lt.mp h2)
        by_cases h3 : preferIncomingDate eD iD
        · exact ⟨iv, by simp [h1, h2, h3], le_of_eq hvv.symm⟩
        · exact ⟨v, by simp [h1, h2, h3], le_refl v⟩

theorem mergeMin_value_mono (e i : RecordPair) (v : ℚ) (hv : e.1 = some v) :
    ∃ w, (mergeMin e i).1 = some w ∧ w ≤ v := by
  obtain ⟨eV, eD⟩ := e
  obtain ⟨iV, iD⟩ := i
  simp only at hv
  subst hv
  cases iV with
  | none => exact ⟨v, rfl, le_refl v⟩
  | some iv =>
    simp only [mergeMin]
    by_cases h1 : iv < v
    · exact ⟨iv, by simp [h1], le_of_lt h1⟩
    · by_cases h2 : iv > v
      · exact ⟨v, by simp [h1, h2], le_refl v⟩
      · have hvv : iv = v := le_antisymm (not_lt.mp h2) (not_lt.mp h1)
        by_cases h3 : preferIncomingDate eD iD
        · exact ⟨iv, by simp [h1, h2, h3], le_of_eq hvv⟩
        · exact ⟨v, by simp [h1, h2, h3], le_refl v⟩

theorem mergeMax_reabsorb (A B : RecordPair) :
    mergeMax (mergeMax A B) B = mergeMax A B := by
  obtain ⟨eV, eD⟩ := A
  obtain ⟨iV, iD⟩ := B
  cases iV with
  | none => simp [mergeMax]
  | some iv =>
    cases eV with
    | none =>
      simp only [mergeMax, lt_irrefl, if_false]
      by_cases h3 : preferIncomingDate iD iD <;> simp [h3]
    | some ev =>
      by_cases h1 : iv > ev
      · simp only [mergeMax, h1, if_true, lt_irrefl, if_false]
        by_cases h3 : preferIncomingDate iD iD <;> simp [h3]
      · by_cases h2 : iv < ev
        · simp [mergeMax, h1, h2, not_lt.mpr (le_of_lt h2), asymm h2]
        · have hvv : iv = ev := le_antisymm (not_lt.mp h1) (not_lt.mp h2)
          subst hvv
          by_cases h3 : preferIncomingDate eD iD
          · simp only [mergeMax, lt_irrefl, if_false, h3, if_true]
            by_cases h4 : preferIncomingDate iD iD <;> simp [h4]
          · simp [mergeMax, h3]

theorem mergeMin_reabsorb (A B : RecordPair) :
    mergeMin (mergeMin A B) B = mergeMin A B := by
  obtain ⟨eV, eD⟩ := A
  obtain ⟨iV, iD⟩ := B
  cases iV with
  | none => simp [mergeMin]
  | some iv =>
    cases eV with
    | none =>
      simp only [mergeMin, lt_irrefl, if_false]
      by_cases h3 : preferIncomingDate iD iD <;> simp [h3]
    | some ev =>
      by_cases h1 : iv < ev
      · simp only [mergeMin, h1, if_true, lt_irrefl, if_false]
        by_cases h3 : preferIncomingDate iD iD <;> simp [h3]
      · by_cases h2 : iv > ev
        · simp [mergeMin, h1, h2, not_lt.mpr (le_of_lt h2), asymm h2]
        · have hvv : iv = ev := le_antisymm (not_lt.mp h2) (not_lt.mp h1)
          subst hvv
          by_cases h3 : preferIncomingDate eD iD
          · simp only [mergeMin, lt_irrefl, if_false, h3, if_true]
            by_cases h4 : preferIncomingDate iD iD <;> simp [h4]
          · simp [mergeMin, h3]

theorem mergeMax_self (A : RecordPair) : mergeMax A A = A := by
  obtain ⟨eV, eD⟩ := A
  cases eV with
  | none => simp [mergeMax]
  | some v =>
    by_cases h3 : preferIncomingDate eD eD <;> simp [mergeMax, h3]

theorem mergeMin_self (A : RecordPair) : mergeMin A A = A := by
  obtain ⟨eV, eD⟩ := A
  cases eV with
  | none => simp [mergeMin]
  | some v =>
    by_cases h3 : preferIncomingDate eD eD <;> simp [mergeMin, h3]

/-- C1: the Record Merger never regresses an existing record: whenever the
existing pair has a non-null value `v`, the max-type merge yields a value
`≥ v` and the min-type merge a value `≤ v`, for every incoming candidate. -/
theorem C1_record_merger_never_regresses :
    (∀ e i : RecordPair, ∀ v : ℚ, e.1 = some v →
       ∃ w, (mergeMax e i).1 = some w ∧ v ≤ w) ∧
    (∀ e i : RecordPair, ∀ v : ℚ, e.1 = some v →
       ∃ w, (mergeMin e i).1 = some w ∧ w ≤ v) :=
  ⟨mergeMax_value_mono, mergeMin_value_mono⟩

/-- Witness for C1 at a concrete input. -/
theorem C1_record_merger_never_regresses_witness :
    (∃ w, (mergeMax ((some 5, some "2001") : RecordPair) (some 7, none)).1 =
        some w ∧ (5 : ℚ) ≤ w) ∧
    (∃ w, (mergeMin ((some 5, some "2001") : RecordPair) (some 3, none)).1 =
        some w ∧ w ≤ (5 : ℚ)) :=
  ⟨C1_record_merger_never_regresses.1 (some 5, some "2001") (some 7, none) 5 rfl,
   C1_record_merger_never_regresses.2 (some 5, some "2001") (some 3, none) 5 rfl⟩

/-- C2: the Record Merger is idempotent, `merge (merge A B) B = merge A B`,
for both merge directions; in particular merging a pair with itself, or a
max-type (resp. min-type) record with a strictly smaller (resp. larger)
candidate, returns the original pair unchanged. -/
theorem C2_record_merger_idempotent :
    (∀ A B : RecordPair, mergeMax (mergeMax A B) B = mergeMax A B) ∧
    (∀ A B : RecordPair, mergeMin (mergeMin A B) B = mergeMin A B) ∧
    (∀ A : RecordPair, mergeMax A A = A) ∧
    (∀ A : RecordPair, mergeMin A A = A) ∧
    (∀ (ev iv : ℚ) (ed id : Option String), iv < ev →
       mergeMax (some ev, ed) (some iv, id) = (some ev, ed)) ∧
    (∀ (ev iv : ℚ) (ed id : Option String), ev < iv →
       mergeMin (some ev, ed) (some iv, id) = (some ev, ed)) := by
  refine ⟨mergeMax_reabsorb, mergeMin_reabsorb, mergeMax_self, mergeMin_self,
    ?_, ?_⟩
  · intro ev iv ed id h
    simp [mergeMax, h, asymm h]
  · intro ev iv ed id h
    simp [mergeMin, h, asymm h]

/-- Witness for C2 at a concrete input. -/
theorem C2_record_merger_idempotent_witness :
    mergeMax ((some 4, some "2001") : RecordPair) (some 3, some "d") =
        (some 4, some "2001") ∧
    mergeMin ((some 4, some "2001") : RecordPair) (some 9, some "d") =
        (some 4, some "2001") :=
  ⟨C2_record_merger_idempotent.2.2.2.2.1 4 3 (some "2001") (some "d")
     (by norm_num),
   C2_record_merger_idempotent.2.2.2.2.2 4 9 (some "2001") (some "d")
     (by norm_num)⟩

/-- C3: on equal values the merge keeps the value and takes the incoming
date exactly when the incoming date is present and the existing date is
missing (null or empty) or a bare four-digit year; in particular merging
existing `(40, "2001")` with incoming `(40, "4th Jan 2001")` yields
`(40, "4th Jan 2001")`. -/
theorem C3_equal_values_prefer_precise_incoming_date :
    (∀ (v : ℚ) (ed id : Option String),
       mergeMax (some v, ed) (some v, id) =
         (some v,
          if id.isSome ∧ (ed = none ∨ ed = some "" ∨ optYearOnly ed = true)
          then id else ed)) ∧
    (∀ (v : ℚ) (ed id : Option String),
       mergeMin (some v, ed) (some v, id) =
         (some v,
          if id.isSome ∧ (ed = none ∨ ed = some "" ∨ optYearOnly ed = true)
          then id else ed)) ∧
    mergeMax ((some 40, some "2001") : RecordPair)
        (some 40, some "4th Jan 2001") = (some 40, some "4th Jan 2001") := by
  refine ⟨?_, ?_, ?_⟩
  · intro v ed id
    by_cases h : id.isSome ∧ (ed = none ∨ ed = some "" ∨ optYearOnly ed = true)
    · have hp : preferIncomingDate ed id = true :=
        (preferIncomingDate_iff ed id).mpr h
      simp [mergeMax, hp, h]
    · have hp : ¬ preferIncomingDate ed id = true := fun hc =>
        h ((preferIncomingDate_iff ed id).mp hc)
      simp [mergeMax, hp, h]
  · intro v ed id
    by_cases h : id.isSome ∧ (ed = none ∨ ed = some "" ∨ optYearOnly ed = true)
    · have hp : preferIncomingDate ed id = true :=
        (preferIncomingDate_iff ed id).mpr h
      simp [mergeMin, hp, h]
    · have hp : ¬ preferIncomingDate ed id = true := fun hc =>
        h ((preferIncomingDate_iff ed id).mp hc)
      simp [mergeMin, hp, h]
  · decide

unseal Rat.add Rat.mul Rat.inv Rat.sub in
/-- C7: the Percent Normalizer divides a numeric input by 100 exactly when it
is greater than 1 and at most 100, passes values at most 1 and values above
100 through, parses trailing-percent text, and returns null for unparseable
input; with the concrete examples of the specification. -/
theorem C7_percent_normalizer_rules :
    (∀ q : ℚ, 1 < q → q ≤ 100 → parsePercent (.num q) = some (q / 100)) ∧
    (∀ q : ℚ, q ≤ 1 → parsePercent (.num q) = some q) ∧
    (∀ q : ℚ, 100 < q → parsePercent (.num q) = some q) ∧
    parsePercent (.num (1 / 2)) = some (1 / 2) ∧
    parsePercent (.num 84) = some (84 / 100) ∧
    parsePercent (.str "12%") = some (12 / 100) ∧
    parsePercent (.num 150) = some 150 ∧
    parsePercent (.str "abc") = none ∧
    parsePercent .null = none := by
  refine ⟨?_, ?_, ?_, by decide, by decide, by decide, by decide, by decide,
    rfl⟩
  · intro q h1 h2
    have h : 1 < q ∧ q ≤ 100 := ⟨h1, h2⟩
    simp [parsePercent, if_pos h]
  · intro q h1
    have h : ¬ (1 < q ∧ q ≤ 100) := by rintro ⟨a, _⟩; linarith
    simp [parsePercent, if_neg h]
  · intro q h1
    have h : ¬ (1 < q ∧ q ≤ 100) := by rintro ⟨_, b⟩; linarith
    simp [parsePercent, if_neg h]

/-- Witness for C7 at concrete inputs. -/
theorem C7_percent_normalizer_rules_witness :
    parsePercent (.num 50) = some (50 / 100) ∧
    parsePercent (.num (27 / 100)) = some (27 / 100) ∧
    parsePercent (.num 250) = some 250 :=
  ⟨C7_percent_normalizer_rules.1 50 (by norm_num) (by norm_num),
   C7_percent_normalizer_rules.2.1 (27 / 100) (by norm_num),
   C7_percent_normalizer_rules.2.2.1 250 (by norm_num)⟩

unseal Rat.add Rat.mul Rat.inv Rat.sub in
/-- C10: for every trailing-percent string the parsed number is divided by
100 regardless of magnitude, so `"150%"` yields 1.5 even though the bare
numeric 150 passes through unchanged: the above-100 passthrough rule never
applies to percent-suffixed text. -/
theorem C10_percent_suffix_always_divides :
    (∀ (s : String) (n : ℚ),
       (trimL s.toList).getLast? = some '%' →
       jsNumberL (removeCommas (trimL s.toList).dropLast) = some n →
       parsePercent (.str s) = some (n / 100)) ∧
    parsePercent (.str "150%") = some (3 / 2) ∧
    parsePercent (.num 150) = some 150 := by
  refine ⟨?_, by decide, by decide⟩
  intro s n hp hn
  simp only [String.toList] at hp hn
  simp [parsePercent, hp, hn]

unseal Rat.add Rat.mul Rat.inv Rat.sub in
/-- Witness for C10 at a concrete input. -/
theorem C10_percent_suffix_always_divides_witness :
    parsePercent (.str "320%") = some ((320 : ℚ) / 100) :=
  C10_percent_suffix_always_divides.1 "320%" 320 (by decide) (by decide)

-- --------------------------------------------------------------------------
-- Lemmas about buildWindows
-- --------------------------------------------------------------------------

theorem buildWindowsGo_zero_step_none :
    ∀ (fuel : ℕ) (k : ℤ),
      buildWindowsGo ⟨2000, 2020, 2000, 30, 0⟩ fuel k [] = none := by
  intro fuel
  induction fuel with
  | zero => intro k; rfl
  | succ n ih =>
    intro k
    rw [buildWindowsGo]
    norm_num
    exact ih (k + 1)

theorem buildWindowsGo_shape (a : BWArgs) :
    ∀ (fuel : ℕ) (k : ℤ) (out L : List (ℤ × ℤ)),
      buildWindowsGo a fuel k out = some L → ∀ w ∈ L,
        w ∈ out ∨
        (w.2 = w.1 + (a.windowYears - 1) ∧ w.2 ≤ a.maxYear ∧
          ∃ j : ℤ, w.1 = a.baseStartYear + j * a.stepYears) := by
  intro fuel
  induction fuel with
  | zero => intro k out L h; exact absurd h (by simp [buildWindowsGo])
  | succ n ih =>
    intro k out L h w hw
    rw [buildWindowsGo] at h
    by_cases h1 : a.baseStartYear + k * a.stepYears > a.maxYear
    · rw [if_pos h1] at h
      exact Or.inl (by simpa [← Option.some.injEq .. |>.mp h] using hw)
    · rw [if_neg h1] at h
      by_cases h2 :
          a.baseStartYear + k * a.stepYears + (a.windowYears - 1) ≤ a.maxYear
      · simp only [if_pos h2] at h
        by_cases h3 :
            (out ++ [(a.baseStartYear + k * a.stepYears,
              a.baseStartYear + k * a.stepYears + (a.windowYears - 1))]).length
              > 50
        · rw [if_pos h3] at h
          have hL := Option.some.injEq .. |>.mp h
          rcases List.mem_append.mp (hL ▸ hw) with hmem | hmem
          · exact Or.inl hmem
          · rcases List.mem_singleton.mp hmem with rfl
            exact Or.inr ⟨rfl, h2, ⟨k, rfl⟩⟩
        · rw [if_neg h3] at h
          rcases ih (k + 1) _ L h w hw with hmem | hshape
          · rcases List.mem_append.mp hmem with hmem2 | hmem2
            · exact Or.inl hmem2
            · rcases List.mem_singleton.mp hmem2 with rfl
              exact Or.inr ⟨rfl, h2, ⟨k, rfl⟩⟩
          · exact Or.inr hshape
      · simp only [if_neg h2] at h
        by_cases h3 : out.length > 50
        · rw [if_pos h3] at h
          exact Or.inl (by simpa [← Option.some.injEq .. |>.mp h] using hw)
        · rw [if_neg h3] at h
          rcases ih (k + 1) _ L h w hw with hmem | hshape
          · exact Or.inl hmem
          · exact Or.inr hshape

theorem buildWindows_a6_eval (fuel : ℕ) (h : 3 ≤ fuel) :
    buildWindowsFuel ⟨1950, 2020, 1961, 30, 30⟩ fuel =
      some [(1961, 1990), (1991, 2020)] := by
  obtain ⟨f, rfl⟩ : ∃ f, fuel = f + 3 := ⟨fuel - 3, by omega⟩
  have hk : bwInitK ⟨1950, 2020, 1961, 30, 30⟩ = 0 := by
    show (if (30 : ℤ) = 0 then (0 : ℤ) else ⌈((1950 - 1961 : ℤ) : ℚ) / ((30 : ℤ) : ℚ)⌉) = 0
    norm_num
  show buildWindowsGo _ (f + 3) (bwInitK _) [] = _
  rw [hk]
  have e3 : f + 3 = (f + 2) + 1 := rfl
  rw [e3, buildWindowsGo]
  norm_num
  have e2 : f + 2 = (f + 1) + 1 := rfl
  rw [e2, buildWindowsGo]
  norm_num
  rw [buildWindowsGo]
  norm_num

/-- C4: refuted as stated — for `stepYears = 0` with
`baseStartYear ≤ maxYear < baseStartYear + windowYears - 1` the
`buildWindows` loop never breaks: the fueled runner returns `none` (no
`break` reached) for every amount of fuel, because `start` stays fixed at
2000 ≤ maxYear while no window is ever emitted, so the 50-window cap
never fires.  This demonstrates the claimed termination fails. -/
theorem C4_buildWindows_zero_step_never_breaks :
    ∀ fuel : ℕ,
      buildWindowsFuel ⟨2000, 2020, 2000, 30, 0⟩ fuel = none := by
  intro fuel
  have hk : bwInitK ⟨2000, 2020, 2000, 30, 0⟩ = 0 := rfl
  show buildWindowsGo _ fuel (bwInitK _) [] = none
  rw [hk]
  exact buildWindowsGo_zero_step_none fuel 0

/-- C6: `buildWindows` on `(minYear 1950, maxYear 2020, base 1961,
windowYears 30, stepYears 30)` returns exactly `[(1961, 1990),
(1991, 2020)]`, and in general every emitted window `(start, end)`
satisfies `end = start + windowYears - 1`, `end ≤ maxYear`, and `start`
lies on the step grid `baseStartYear + j * stepYears`. -/
theorem C6_buildWindows_standard_windows :
    (∀ fuel : ℕ, 3 ≤ fuel →
       buildWindowsFuel ⟨1950, 2020, 1961, 30, 30⟩ fuel =
         some [(1961, 1990), (1991, 2020)]) ∧
    (∀ (a : BWArgs) (fuel : ℕ) (L : List (ℤ × ℤ)),
       buildWindowsFuel a fuel = some L → ∀ w ∈ L,
         w.2 = w.1 + (a.windowYears - 1) ∧ w.2 ≤ a.maxYear ∧
           ∃ j : ℤ, w.1 = a.baseStartYear + j * a.stepYears) := by
  refine ⟨buildWindows_a6_eval, ?_⟩
  intro a fuel L h w hw
  rcases buildWindowsGo_shape a fuel (bwInitK a) [] L h w hw with hmem | hshape
  · exact absurd hmem (List.not_mem_nil w)
  · exact hshape

/-- Witness for C6 at concrete inputs. -/
theorem C6_buildWindows_standard_windows_witness :
    buildWindowsFuel ⟨1950, 2020, 1961, 30, 30⟩ 10 =
      some [(1961, 1990), (1991, 2020)] ∧
    ((1990 : ℤ) = 1961 + (30 - 1) ∧ (1990 : ℤ) ≤ 2020 ∧
      ∃ j : ℤ, (1961 : ℤ) = 1961 + j * 30) := by
  have h1 := C6_buildWindows_standard_windows.1 10 (by norm_num)
  refine ⟨h1, ?_⟩
  have h2 := C6_buildWindows_standard_windows.2 ⟨1950, 2020, 1961, 30, 30⟩
    10 _ h1 (1961, 1990) (by simp)
  simpa using h2

-- --------------------------------------------------------------------------
-- Lemmas about the wettest-month year pickers
-- --------------------------------------------------------------------------

theorem pickYearStep_inv (cs : List (ℚ × ℚ)) (st : Option ℚ × Option ℚ)
    (r : YearMonthAgg) (h : pickYearInv cs st) :
    pickYearInv (cs ++ ((r.precip.map (fun p => (p, r.year))).toList))
      (pickYearStep st r) := by
  rcases hr : r.precip with _ | p
  · simpa [pickYearStep, hr] using h
  · rcases h with ⟨hcs, hst⟩ | ⟨T, Y, hst, hmem, hub, hatt⟩
    · subst hcs
      rw [hst]
      refine Or.inr ⟨p, r.year, by simp [pickYearStep, hr], ?_, ?_, ?_⟩ <;>
        simp [hr]
    · rw [hst]
      by_cases h1 : p > T
      · refine Or.inr ⟨p, r.year, by simp [pickYearStep, hr, hst, h1], ?_, ?_, ?_⟩
        · simp [hr]
        · intro c hc
          rcases List.mem_append.mp hc with hc2 | hc2
          · exact le_of_lt (lt_of_le_of_lt (hub c hc2) h1)
          · simp [hr] at hc2; simp [hc2]
        · intro c hc hceq
          rcases List.mem_append.mp hc with hc2 | hc2
          · exact absurd hceq (ne_of_lt (lt_of_le_of_lt (hub c hc2) h1))
          · simp [hr] at hc2; simp [hc2]
      · by_cases h2 : p = T ∧ r.year < Y
        · refine Or.inr ⟨T, r.year, by simp [pickYearStep, hr, hst, h1, h2], ?_, ?_, ?_⟩
          · refine List.mem_append.mpr (Or.inr ?_)
            simp [hr, h2.1]
          · intro c hc
            rcases List.mem_append.mp hc with hc2 | hc2
            · exact hub c hc2
            · simp [hr] at hc2; simp [hc2]; exact le_of_not_lt h1
          · intro c hc hceq
            rcases List.mem_append.mp hc with hc2 | hc2
            · exact le_of_lt (lt_of_lt_of_le h2.2 (hatt c hc2 hceq))
            · simp [hr] at hc2; simp [hc2]
        · refine Or.inr ⟨T, Y, by simp [pickYearStep, hr, hst, h1, h2], ?_, ?_, ?_⟩
          · exact List.mem_append.mpr (Or.inl hmem)
          · intro c hc
            rcases List.mem_append.mp hc with hc2 | hc2
            · exact hub c hc2
            · simp [hr] at hc2; simp [hc2]; exact le_of_not_lt h1
          · intro c hc hceq
            rcases List.mem_append.mp hc with hc2 | hc2
            · exact hatt c hc2 hceq
            · simp [hr] at hc2
              subst hc2
              rcases not_and_or.mp h2 with h3 | h3
              · exact absurd hceq h3
              · exact le_of_not_lt h3

theorem pickYear_fold_inv :
    ∀ (bucket : List YearMonthAgg) (st : Option ℚ × Option ℚ)
      (cs : List (ℚ × ℚ)), pickYearInv cs st →
      pickYearInv (cs ++ precipCands bucket)
        (bucket.foldl pickYearStep st) := by
  intro bucket
  induction bucket with
  | nil => intro st cs h; simpa [precipCands] using h
  | cons r t ih =>
    intro st cs h
    have h2 := pickYearStep_inv cs st r h
    have h3 := ih (pickYearStep st r)
      (cs ++ (r.precip.map (fun p => (p, r.year))).toList) h2
    have e : precipCands (r :: t) =
        (r.precip.map (fun p => (p, r.year))).toList ++ precipCands t := by
      rcases hr : r.precip with _ | p <;> simp [precipCands, hr]
    rw [List.foldl_cons]
    rw [e, ← List.append_assoc]
    exact h3

theorem pickYear_state_inv (bucket : List YearMonthAgg) :
    pickYearInv (precipCands bucket)
      (bucket.foldl pickYearStep ((none, none) : Option ℚ × Option ℚ)) := by
  have h := pickYear_fold_inv bucket ((none, none)) [] (Or.inl ⟨rfl, rfl⟩)
  simpa using h

theorem pickYearInv_unique (cs1 cs2 : List (ℚ × ℚ))
    (st1 st2 : Option ℚ × Option ℚ) (hp : cs1.Perm cs2)
    (h1 : pickYearInv cs1 st1) (h2 : pickYearInv cs2 st2) : st1 = st2 := by
  rcases h1 with ⟨hcs1, hst1⟩ | ⟨T1, Y1, hst1, hmem1, hub1, hatt1⟩ <;>
    rcases h2 with ⟨hcs2, hst2⟩ | ⟨T2, Y2, hst2, hmem2, hub2, hatt2⟩
  · rw [hst1, hst2]
  · exact absurd (hp.mem_iff.mpr hmem2) (by simp [hcs1])
  · exact absurd (hp.mem_iff.mp hmem1) (by simp [hcs2])
  · have hm12 := hp.mem_iff.mp hmem1
    have hm21 := hp.mem_iff.mpr hmem2
    have hT : T1 = T2 := le_antisymm (hub2 _ hm12) (hub1 _ hm21)
    subst hT
    have hY : Y1 = Y2 :=
      le_antisymm (hatt1 _ hm21 rfl) (hatt2 _ hm12 rfl)
    rw [hst1, hst2, hY]

theorem wettestStep_inv (processed : List MonthlyAggRecord)
    (st : Option ℚ × Option ℚ) (r : MonthlyAggRecord)
    (h : wettestInv processed st) :
    wettestInv (processed ++ [r]) (wettestStep st r) := by
  rcases hr : r.totalPrecip with _ | t
  · rcases h with ⟨hst, hall⟩ | ⟨T, Y, hst, hub, l1, rr, l2, hsplit, hrr, hyr, hl1⟩
    · refine Or.inl ⟨by simp [wettestStep, hr, hst], ?_⟩
      intro x hx
      rcases List.mem_append.mp hx with hx2 | hx2
      · exact hall x hx2
      · rw [List.mem_singleton.mp hx2]; exact hr
    · refine Or.inr ⟨T, Y, by simp [wettestStep, hr, hst], ?_, ?_⟩
      · intro x hx u hu
        rcases List.mem_append.mp hx with hx2 | hx2
        · exact hub x hx2 u hu
        · rw [List.mem_singleton.mp hx2] at hu
          rw [hr] at hu; cases hu
      · exact ⟨l1, rr, l2 ++ [r], by rw [hsplit]; simp, hrr, hyr, hl1⟩
  · rcases h with ⟨hst, hall⟩ | ⟨T, Y, hst, hub, l1, rr, l2, hsplit, hrr, hyr, hl1⟩
    · refine Or.inr ⟨t, r.year, by simp [wettestStep, hr, hst], ?_, ?_⟩
      · intro x hx u hu
        rcases List.mem_append.mp hx with hx2 | hx2
        · rw [hall x hx2] at hu; cases hu
        · rw [List.mem_singleton.mp hx2] at hu
          rw [hr] at hu
          have he : t = u := by simpa using hu
          exact le_of_eq he.symm
      · refine ⟨processed, r, [], by simp, hr, rfl, ?_⟩
        intro r2 hr2 u hu
        rw [hall r2 hr2] at hu; cases hu
    · by_cases h1 : t > T
      · refine Or.inr ⟨t, r.year, by simp [wettestStep, hr, hst, h1], ?_, ?_⟩
        · intro x hx u hu
          rcases List.mem_append.mp hx with hx2 | hx2
          · exact le_of_lt (lt_of_le_of_lt (hub x hx2 u hu) h1)
          · rw [List.mem_singleton.mp hx2] at hu
            rw [hr] at hu
            have he : t = u := by simpa using hu
            exact le_of_eq he.symm
        · refine ⟨processed, r, [], by simp, hr, rfl, ?_⟩
          intro r2 hr2 u hu
          exact lt_of_le_of_lt (hub r2 hr2 u hu) h1
      · refine Or.inr ⟨T, Y, by simp [wettestStep, hr, hst, h1], ?_, ?_⟩
        · intro x hx u hu
          rcases List.mem_append.mp hx with hx2 | hx2
          · exact hub x hx2 u hu
          · rw [List.mem_singleton.mp hx2] at hu
            rw [hr] at hu
            have he : t = u := by simpa using hu
            rw [← he]
            exact le_of_not_lt h1
        · exact ⟨l1, rr, l2 ++ [r], by rw [hsplit]; simp, hrr, hyr, hl1⟩

theorem wettest_fold_inv :
    ∀ (records : List MonthlyAggRecord) (st : Option ℚ × Option ℚ)
      (processed : List MonthlyAggRecord), wettestInv processed st →
      wettestInv (processed ++ records) (records.foldl wettestStep st) := by
  intro records
  induction records with
  | nil => intro st processed h; simpa using h
  | cons r t ih =>
    intro st processed h
    have h2 := wettestStep_inv processed st r h
    have h3 := ih (wettestStep st r) (processed ++ [r]) h2
    rw [List.foldl_cons]
    simpa using h3

theorem wettest_state_inv (records : List MonthlyAggRecord) :
    wettestInv records
      (records.foldl wettestStep ((none, none) : Option ℚ × Option ℚ)) := by
  have h := wettest_fold_inv records ((none, none)) []
    (Or.inl ⟨rfl, by intro r hr; cases hr⟩)
  simpa using h

unseal Rat.add Rat.mul Rat.inv Rat.sub in
/-- C9 counterexample: `wettestMonthlyTotal` (computeClimatology.ts) does not
tie-break by earliest year — on two records with equal totals it keeps the
first in input order, so reversing the input changes the reported year. -/
theorem C9_wettest_tie_counterexample :
    wettestMonthlyTotal
        [⟨2000, some 50⟩, ⟨1990, some 50⟩] = (some 50, some 2000) ∧
    wettestMonthlyTotal
        [⟨1990, some 50⟩, ⟨2000, some 50⟩] = (some 50, some 1990) ∧
    ((2000 : ℚ) ≠ 1990) := by
  refine ⟨by decide, by decide, by norm_num⟩

/-- C9 amended: `pickYearOfMaxMonthlyTotal` (climatology.ts, the function the
window builders use) is order-independent and returns the earliest year among
the records attaining the largest finite monthly total; `wettestMonthlyTotal`
(computeClimatology.ts) instead returns the year of the FIRST record
attaining the maximum in input order (its result at ties depends on input
order). -/
theorem C9_wettest_year_earliest_amended :
    (∀ bucket1 bucket2 : List YearMonthAgg, bucket1.Perm bucket2 →
       pickYearOfMaxMonthlyTotal bucket1 = pickYearOfMaxMonthlyTotal bucket2) ∧
    (∀ (bucket : List YearMonthAgg) (Y : ℚ),
       pickYearOfMaxMonthlyTotal bucket = some Y →
       ∃ T, (T, Y) ∈ precipCands bucket ∧
         (∀ c ∈ precipCands bucket, c.1 ≤ T) ∧
         (∀ c ∈ precipCands bucket, c.1 = T → Y ≤ c.2)) ∧
    (∀ (records : List MonthlyAggRecord) (t2 Y : ℚ),
       wettestMonthlyTotal records = (some t2, some Y) →
       ∃ T, t2 = round2 T ∧
         (∀ r ∈ records, ∀ t ∈ r.totalPrecip, t ≤ T) ∧
         ∃ l1 rr l2, records = l1 ++ rr :: l2 ∧ rr.totalPrecip = some T ∧
           rr.year = Y ∧ ∀ r2 ∈ l1, ∀ u ∈ r2.totalPrecip, u < T) := by
  refine ⟨?_, ?_, ?_⟩
  · intro b1 b2 hp
    have hinv1 := pickYear_state_inv b1
    have hinv2 := pickYear_state_inv b2
    have hper : (precipCands b1).Perm (precipCands b2) := hp.filterMap _
    have := pickYearInv_unique _ _ _ _ hper hinv1 hinv2
    exact congrArg Prod.snd this
  · intro bucket Y h
    rcases pickYear_state_inv bucket with ⟨hcs, hst⟩ |
      ⟨T, Y2, hst, hmem, hub, hatt⟩
    · rw [pickYearOfMaxMonthlyTotal, hst] at h
      cases h
    · rw [pickYearOfMaxMonthlyTotal, hst] at h
      have hy : Y2 = Y := by simpa using h
      subst hy
      exact ⟨T, hmem, hub, hatt⟩
  · intro records t2 Y h
    rcases wettest_state_inv records with ⟨hst, hall⟩ |
      ⟨T, Y2, hst, hub, l1, rr, l2, hsplit, hrr, hyr, hl1⟩
    · rw [wettestMonthlyTotal, hst] at h
      cases h
    · rw [wettestMonthlyTotal, hst] at h
      simp only [Prod.mk.injEq, Option.some.injEq] at h
      exact ⟨T, h.1.symm, hub, l1, rr, l2, hsplit, hrr, by rw [hyr, h.2], hl1⟩

unseal Rat.add Rat.mul Rat.inv Rat.sub in
/-- Witness for the amended C9 at concrete inputs. -/
theorem C9_wettest_year_earliest_amended_witness :
    pickYearOfMaxMonthlyTotal [⟨1995, some 7⟩, ⟨1998, some 7⟩] =
      pickYearOfMaxMonthlyTotal [⟨1998, some 7⟩, ⟨1995, some 7⟩] ∧
    (∃ T, (T, (1995 : ℚ)) ∈ precipCands [⟨1995, some 7⟩, ⟨1998, some 7⟩] ∧
      (∀ c ∈ precipCands [⟨1995, some 7⟩, ⟨1998, some 7⟩], c.1 ≤ T) ∧
      (∀ c ∈ precipCands [⟨1995, some 7⟩, ⟨1998, some 7⟩],
        c.1 = T → (1995 : ℚ) ≤ c.2)) ∧
    (∃ T, (7 : ℚ) = round2 T ∧
      (∀ r ∈ ([⟨1995, some 7⟩] : List MonthlyAggRecord),
        ∀ t ∈ r.totalPrecip, t ≤ T) ∧
      ∃ l1 rr l2, ([⟨1995, some 7⟩] : List MonthlyAggRecord) =
          l1 ++ rr :: l2 ∧ rr.totalPrecip = some T ∧ rr.year = (1995 : ℚ) ∧
          ∀ r2 ∈ l1, ∀ u ∈ r2.totalPrecip, u < T) :=
  ⟨C9_wettest_year_earliest_amended.1 _ _ (List.Perm.swap _ _ _),
   C9_wettest_year_earliest_amended.2.1 [⟨1995, some 7⟩, ⟨1998, some 7⟩] 1995
     (by decide),
   C9_wettest_year_earliest_amended.2.2 [⟨1995, some 7⟩] 7 1995 (by decide)⟩

-- --------------------------------------------------------------------------
-- Decimal digit and date formatting lemmas
-- --------------------------------------------------------------------------

theorem digitChar_isDigit {n : ℕ} (h : n < 10) :
    (digitChar n).isDigit = true := by
  interval_cases n <;> decide

theorem digitChar_toNat {n : ℕ} (h : n < 10) :
    (digitChar n).toNat = 48 + n := by
  interval_cases n <;> decide

theorem digitsValN_append_singleton (l : List Char) (c : Char) :
    digitsValN (l ++ [c]) = 10 * digitsValN l + (c.toNat - 48) := by
  simp [digitsValN, List.foldl_append]

theorem natDigitsAux_spec :
    ∀ (fuel n : ℕ), n < fuel →
      natDigitsAux fuel n ≠ [] ∧
      (∀ c ∈ natDigitsAux fuel n, c.isDigit = true) ∧
      digitsValN (natDigitsAux fuel n) = n := by
  intro fuel
  induction fuel with
  | zero => intro n h; omega
  | succ f ih =>
    intro n h
    by_cases h10 : n < 10
    · refine ⟨by simp [natDigitsAux, h10], ?_, ?_⟩
      · intro c hc
        simp [natDigitsAux, h10] at hc
        rw [hc]
        exact digitChar_isDigit h10
      · simp [natDigitsAux, h10, digitsValN, digitChar_toNat h10]
    · have hd : n / 10 < f := by omega
      obtain ⟨hne, hdig, hval⟩ := ih (n / 10) hd
      have hm : n % 10 < 10 := Nat.mod_lt _ (by norm_num)
      refine ⟨by simp [natDigitsAux, h10], ?_, ?_⟩
      · intro c hc
        simp only [natDigitsAux, if_neg h10, List.mem_append,
          List.mem_singleton] at hc
        rcases hc with hc | hc
        · exact hdig c hc
        · rw [hc]; exact digitChar_isDigit hm
      · rw [natDigitsAux]
        rw [if_neg h10]
        rw [digitsValN_append_singleton, hval, digitChar_toNat hm]
        omega

theorem natDigits_ne_nil (n : ℕ) : natDigits n ≠ [] :=
  (natDigitsAux_spec (n + 1) n (Nat.lt_succ_self n)).1

theorem natDigits_all_digits (n : ℕ) :
    ∀ c ∈ natDigits n, c.isDigit = true :=
  (natDigitsAux_spec (n + 1) n (Nat.lt_succ_self n)).2.1

theorem digitsValN_natDigits (n : ℕ) : digitsValN (natDigits n) = n :=
  (natDigitsAux_spec (n + 1) n (Nat.lt_succ_self n)).2.2

theorem digitsValN_replicate_zero (k : ℕ) (l : List Char) :
    digitsValN (List.replicate k '0' ++ l) = digitsValN l := by
  have hz : ∀ j : ℕ, List.foldl (fun a c => 10 * a + (c.toNat - 48)) 0
      (List.replicate j '0') = 0 := by
    intro j
    induction j with
    | zero => rfl
    | succ i ihz => simpa [List.replicate_succ] using ihz
  simp [digitsValN, List.foldl_append, hz k]

theorem pad4_ne_nil (y : ℕ) : pad4 y ≠ [] := by
  intro h
  rcases List.append_eq_nil.mp h with ⟨_, h2⟩
  exact natDigits_ne_nil y h2

theorem pad4_all_digits (y : ℕ) : ∀ c ∈ pad4 y, c.isDigit = true := by
  intro c hc
  rcases List.mem_append.mp hc with hc2 | hc2
  · rw [List.eq_of_mem_replicate hc2]; decide
  · exact natDigits_all_digits y c hc2

theorem digitsValN_pad4 (y : ℕ) : digitsValN (pad4 y) = y := by
  rw [pad4, digitsValN_replicate_zero, digitsValN_natDigits]

theorem ordSuffix_shape (d : ℕ) :
    ∃ c1 c2, ordSuffix d = [c1, c2] ∧ c1.isDigit = false := by
  rw [ordSuffix]
  by_cases h : d % 100 / 10 = 1
  · exact ⟨'t', 'h', by rw [if_pos h], by decide⟩
  · rw [if_neg h]
    have h10 : d % 10 = 0 ∨ d % 10 = 1 ∨ d % 10 = 2 ∨ d % 10 = 3 ∨
        d % 10 = 4 ∨ d % 10 = 5 ∨ d % 10 = 6 ∨ d % 10 = 7 ∨
        d % 10 = 8 ∨ d % 10 = 9 := by omega
    rcases h10 with h1 | h1 | h1 | h1 | h1 | h1 | h1 | h1 | h1 | h1 <;>
      rw [h1] <;> exact ⟨_, _, rfl, by decide⟩

theorem monAbbrev_shape (m : ℕ) (h1 : 1 ≤ m) (h2 : m ≤ 12) :
    ∃ a b c, monAbbrev m = [a, b, c] := by
  interval_cases m <;> exact ⟨_, _, _, rfl⟩

theorem monFromAbbrev_monAbbrev (m : ℕ) (h1 : 1 ≤ m) (h2 : m ≤ 12) :
    monFromAbbrev (monAbbrev m) = some m := by
  interval_cases m <;> decide

theorem takeWhile_append_not (p : Char → Bool) (xs : List Char) (y : Char)
    (ys : List Char) (hxs : ∀ x ∈ xs, p x = true) (hy : p y = false) :
    (xs ++ y :: ys).takeWhile p = xs := by
  induction xs with
  | nil => simp [List.takeWhile, hy]
  | cons a t ih =>
    have ha : p a = true := hxs a (List.mem_cons_self a t)
    simp only [List.cons_append, List.takeWhile, ha]
    exact congrArg (List.cons a)
      (ih (fun x hx => hxs x (List.mem_cons_of_mem a hx)))

theorem dropWhile_append_not (p : Char → Bool) (xs : List Char) (y : Char)
    (ys : List Char) (hxs : ∀ x ∈ xs, p x = true) (hy : p y = false) :
    (xs ++ y :: ys).dropWhile p = y :: ys := by
  induction xs with
  | nil => simp [List.dropWhile, hy]
  | cons a t ih =>
    have ha : p a = true := hxs a (List.mem_cons_self a t)
    simp only [List.cons_append, List.dropWhile, ha]
    exact ih (fun x hx => hxs x (List.mem_cons_of_mem a hx))

theorem parsePrettyL_fmtPrettyL (x : ℕ × ℕ × ℕ) (h1 : 1 ≤ x.2.1)
    (h2 : x.2.1 ≤ 12) : parsePrettyL (fmtPrettyL x) = some x := by
  obtain ⟨y, m, d⟩ := x
  simp only at h1 h2
  obtain ⟨c1, c2, hord, hc1⟩ := ordSuffix_shape d
  obtain ⟨a, b, c, hmon⟩ := monAbbrev_shape m h1 h2
  have hfmt : fmtPrettyL (y, m, d) =
      natDigits d ++ (c1 :: c2 :: ' ' :: a :: b :: c :: ' ' :: pad4 y) := by
    show natDigits d ++ ordSuffix d ++ [' '] ++ monAbbrev m ++ [' '] ++
        pad4 y = _
    rw [hord, hmon]
    simp
  have htake : (fmtPrettyL (y, m, d)).takeWhile Char.isDigit = natDigits d := by
    rw [hfmt]
    exact takeWhile_append_not _ _ _ _ (natDigits_all_digits d) hc1
  have hdropw : (fmtPrettyL (y, m, d)).dropWhile Char.isDigit =
      c1 :: c2 :: ' ' :: a :: b :: c :: ' ' :: pad4 y := by
    rw [hfmt]
    exact dropWhile_append_not _ _ _ _ (natDigits_all_digits d) hc1
  obtain ⟨dh, dt, hnd⟩ := List.exists_cons_of_ne_nil (natDigits_ne_nil d)
  rw [parsePrettyL, htake, hdropw, hnd]
  have hmf : monFromAbbrev [a, b, c] = some m := by
    rw [← hmon]
    exact monFromAbbrev_monAbbrev m h1 h2
  simp only [hmf]
  rw [if_pos ⟨pad4_ne_nil y, List.all_eq_true.mpr (pad4_all_digits y)⟩]
  rw [← hnd, digitsValN_natDigits, digitsValN_pad4]

theorem fmtPrettyL_ne_nil (x : ℕ × ℕ × ℕ) : fmtPrettyL x ≠ [] := by
  intro h
  have h2 : natDigits x.2.2 = [] := by
    have := List.append_eq_nil.mp h
    have := List.append_eq_nil.mp this.1
    have := List.append_eq_nil.mp this.1
    have := List.append_eq_nil.mp this.1
    exact (List.append_eq_nil.mp this.1).1
  exact natDigits_ne_nil _ h2

theorem fmtPretty_ne_empty (x : ℕ × ℕ × ℕ) : fmtPretty x ≠ "" := by
  intro h
  have h2 : fmtPrettyL x = [] := congrArg String.data h
  exact fmtPrettyL_ne_nil x h2

theorem momentPrettyIsBefore_fmt (x1 x2 : ℕ × ℕ × ℕ)
    (ha1 : 1 ≤ x1.2.1) (ha2 : x1.2.1 ≤ 12)
    (hb1 : 1 ≤ x2.2.1) (hb2 : x2.2.1 ≤ 12) :
    momentPrettyIsBefore (fmtPretty x1) (fmtPretty x2) =
      decide (ymdLex x1 x2) := by
  have e1 : (fmtPretty x1).toList = fmtPrettyL x1 := rfl
  have e2 : (fmtPretty x2).toList = fmtPrettyL x2 := rfl
  rw [momentPrettyIsBefore, e1, e2, parsePrettyL_fmtPrettyL x1 ha1 ha2,
    parsePrettyL_fmtPrettyL x2 hb1 hb2]

theorem parseIsoDateL_some (l : List Char) (x : ℕ × ℕ × ℕ)
    (h : parseIsoDateL l = some x) :
    l ≠ [] ∧ 1 ≤ x.2.1 ∧ x.2.1 ≤ 12 := by
  unfold parseIsoDateL at h
  split at h
  · split at h
    · dsimp only at h
      split at h
      · rename_i hb
        cases h
        exact ⟨by simp, hb.1, hb.2.1⟩
      · cases h
    · cases h
  · cases h

theorem ymdLex_irrefl (a : ℕ × ℕ × ℕ) : ¬ ymdLex a a := by
  obtain ⟨a1, a2, a3⟩ := a
  simp [ymdLex]

theorem ymdLex_connex (a b : ℕ × ℕ × ℕ) (h1 : ¬ ymdLex a b)
    (h2 : ¬ ymdLex b a) : a = b := by
  obtain ⟨a1, a2, a3⟩ := a
  obtain ⟨b1, b2, b3⟩ := b
  simp only [ymdLex] at h1 h2
  simp only [Prod.mk.injEq]
  omega

theorem ymdLex_shift (c x M : ℕ × ℕ × ℕ) (hxM : ymdLex x M)
    (hcM : ¬ ymdLex c M) : ¬ ymdLex c x := by
  obtain ⟨a1, a2, a3⟩ := c
  obtain ⟨b1, b2, b3⟩ := x
  obtain ⟨c1, c2, c3⟩ := M
  simp only [ymdLex] at hxM hcM ⊢
  omega

theorem pickMaxStep_inv (tz : String) (i : ℕ) (reqPos : Bool)
    (cs : List (ℚ × (ℕ × ℕ × ℕ))) (st : Option ℚ × Option String)
    (r : OpenMeteoRow) (hval : (parseIsoDateL (trimL r.iso.toList)).isSome)
    (h : pickMaxInv cs st) :
    pickMaxInv (cs ++ (rowCand i reqPos r).toList)
      (pickMaxStep tz i reqPos st r) := by
  obtain ⟨x, hx⟩ := Option.isSome_iff_exists.mp hval
  obtain ⟨hne, hm1, hm2⟩ := parseIsoDateL_some _ _ hx
  have hisoNe : ¬ (String.mk (trimL r.iso.toList) = "") := by
    intro hcon
    exact hne (congrArg String.data hcon)
  have hfmt : fmtIsoToPrettyDate (String.mk (trimL r.iso.toList)) tz =
      some (fmtPretty x) := by
    show (parseIsoDateL (trimL r.iso.toList)).map fmtPretty = _
    rw [hx]
    rfl
  rcases hcell : toNumCell (r.vals.get? i) with _ | n
  · have hstep : pickMaxStep tz i reqPos st r = st := by
      simp only [pickMaxStep, if_neg hisoNe, hcell]
    have hcand : rowCand i reqPos r = none := by
      simp only [rowCand, if_neg hne, hcell]
    rw [hstep, hcand]
    simpa using h
  · rcases hrp : (reqPos && !(decide (n > 0))) with _ | _
    · -- the row is a candidate
      have hcand : rowCand i reqPos r = some (n, x) := by
        simp only [rowCand, if_neg hne, hcell, hx, hrp]
        rfl
      rw [hcand]
      rcases h with ⟨hcs, hst⟩ | ⟨V, M, hst, hM1, hM2, hmem, hub, hatt⟩
      · subst hcs
        have hstep : pickMaxStep tz i reqPos st r =
            (some n, some (fmtPretty x)) := by
          simp only [pickMaxStep, if_neg hisoNe, hcell, hrp, hst, hfmt]
          rfl
        rw [hstep]
        exact Or.inr ⟨n, x, rfl, hm1, hm2, by simp, by simp,
          by simpa using ymdLex_irrefl x⟩
      · by_cases hgt : n > V
        · have hstep : pickMaxStep tz i reqPos st r =
              (some n, some (fmtPretty x)) := by
            simp only [pickMaxStep, if_neg hisoNe, hcell, hrp, hst, hfmt,
              if_pos hgt]
            rfl
          rw [hstep]
          refine Or.inr ⟨n, x, rfl, hm1, hm2, by simp, ?_, ?_⟩
          · intro c hc
            rcases List.mem_append.mp hc with hc2 | hc2
            · exact le_of_lt (lt_of_le_of_lt (hub c hc2) hgt)
            · simp at hc2; simp [hc2]
          · intro c hc hceq
            rcases List.mem_append.mp hc with hc2 | hc2
            · exact absurd hceq (ne_of_lt (lt_of_le_of_lt (hub c hc2) hgt))
            · simp at hc2
              subst hc2
              simpa using ymdLex_irrefl x
        · by_cases heq : n = V
          · have hbdne : fmtPretty M ≠ "" := fmtPretty_ne_empty M
            have hcandne : fmtPretty x ≠ "" := fmtPretty_ne_empty x
            have hbefore : momentPrettyIsBefore (fmtPretty x) (fmtPretty M) =
                decide (ymdLex x M) :=
              momentPrettyIsBefore_fmt x M hm1 hm2 hM1 hM2
            by_cases hlt : ymdLex x M
            · have hstep : pickMaxStep tz i reqPos st r =
                  (some V, some (fmtPretty x)) := by
                simp only [pickMaxStep, if_neg hisoNe, hcell, hrp, hst, hfmt,
                  if_neg hgt, if_pos (And.intro heq hbdne), hbefore]
                simp [hlt, hcandne]
              rw [hstep]
              refine Or.inr ⟨V, x, rfl, hm1, hm2, ?_, ?_, ?_⟩
              · exact List.mem_append.mpr (Or.inr (by simp [heq]))
              · intro c hc
                rcases List.mem_append.mp hc with hc2 | hc2
                · exact hub c hc2
                · simp at hc2; simp [hc2, heq.le]
              · intro c hc hceq
                rcases List.mem_append.mp hc with hc2 | hc2
                · exact ymdLex_shift c.2 x M hlt (hatt c hc2 hceq)
                · simp at hc2
                  subst hc2
                  simpa using ymdLex_irrefl x
            · have hstep : pickMaxStep tz i reqPos st r = st := by
                simp only [pickMaxStep, if_neg hisoNe, hcell, hrp, hst, hfmt,
                  if_neg hgt, if_pos (And.intro heq hbdne), hbefore]
                simp [hlt]
              rw [hstep, hst]
              refine Or.inr ⟨V, M, rfl, hM1, hM2,
                List.mem_append.mpr (Or.inl hmem), ?_, ?_⟩
              · intro c hc
                rcases List.mem_append.mp hc with hc2 | hc2
                · exact hub c hc2
                · simp at hc2; simp [hc2, heq.le]
              · intro c hc hceq
                rcases List.mem_append.mp hc with hc2 | hc2
                · exact hatt c hc2 hceq
                · simp at hc2
                  subst hc2
                  simpa using hlt
          · have hlt2 : n < V := lt_of_le_of_ne (le_of_not_lt hgt) heq
            have hstep : pickMaxStep tz i reqPos st r = st := by
              simp only [pickMaxStep, if_neg hisoNe, hcell, hrp, hst, hfmt,
                if_neg hgt]
              simp [heq]
            rw [hstep, hst]
            refine Or.inr ⟨V, M, rfl, hM1, hM2,
              List.mem_append.mpr (Or.inl hmem), ?_, ?_⟩
            · intro c hc
              rcases List.mem_append.mp hc with hc2 | hc2
              · exact hub c hc2
              · simp at hc2; simp [hc2]; exact le_of_lt hlt2
            · intro c hc hceq
              rcases List.mem_append.mp hc with hc2 | hc2
              · exact hatt c hc2 hceq
              · simp at hc2
                subst hc2
                simp only at hceq
                exact absurd hceq heq
    · -- requirePositive filtered the row out
      have hstep : pickMaxStep tz i reqPos st r = st := by
        simp only [pickMaxStep, if_neg hisoNe, hcell, hrp]
        rfl
      have hcand : rowCand i reqPos r = none := by
        simp only [rowCand, if_neg hne, hcell, hx, hrp]
        rfl
      rw [hstep, hcand]
      simpa using h

theorem pickMax_fold_inv (tz : String) (i : ℕ) (reqPos : Bool) :
    ∀ (rows : List OpenMeteoRow) (st : Option ℚ × Option String)
      (cs : List (ℚ × (ℕ × ℕ × ℕ))),
      (∀ r ∈ rows, (parseIsoDateL (trimL r.iso.toList)).isSome) →
      pickMaxInv cs st →
      pickMaxInv (cs ++ rowCands i reqPos rows)
        (rows.foldl (pickMaxStep tz i reqPos) st) := by
  intro rows
  induction rows with
  | nil => intro st cs hv h; simpa [rowCands] using h
  | cons r t ih =>
    intro st cs hv h
    have h2 := pickMaxStep_inv tz i reqPos cs st r (hv r (by simp)) h
    have h3 := ih (pickMaxStep tz i reqPos st r) _
      (fun r2 hr2 => hv r2 (by simp [hr2])) h2
    have e : rowCands i reqPos (r :: t) =
        (rowCand i reqPos r).toList ++ rowCands i reqPos t := by
      rcases hc : rowCand i reqPos r with _ | c <;> simp [rowCands, hc]
    rw [List.foldl_cons, e, ← List.append_assoc]
    exact h3

theorem pickMax_state_inv (tz : String) (i : ℕ) (reqPos : Bool)
    (rows : List OpenMeteoRow)
    (hv : ∀ r ∈ rows, (parseIsoDateL (trimL r.iso.toList)).isSome) :
    pickMaxInv (rowCands i reqPos rows)
      (pickMaxWithDate rows tz (some i) reqPos) := by
  have h := pickMax_fold_inv tz i reqPos rows (none, none) [] hv
    (Or.inl ⟨rfl, rfl⟩)
  simpa [pickMaxWithDate] using h

theorem pickMaxInv_unique (cs1 cs2 : List (ℚ × (ℕ × ℕ × ℕ)))
    (st1 st2 : Option ℚ × Option String) (hp : cs1.Perm cs2)
    (h1 : pickMaxInv cs1 st1) (h2 : pickMaxInv cs2 st2) : st1 = st2 := by
  rcases h1 with ⟨hcs1, hst1⟩ | ⟨V1, M1, hst1, _, _, hmem1, hub1, hatt1⟩ <;>
    rcases h2 with ⟨hcs2, hst2⟩ | ⟨V2, M2, hst2, _, _, hmem2, hub2, hatt2⟩
  · rw [hst1, hst2]
  · exact absurd (hp.mem_iff.mpr hmem2) (by simp [hcs1])
  · exact absurd (hp.mem_iff.mp hmem1) (by simp [hcs2])
  · have hm12 := hp.mem_iff.mp hmem1
    have hm21 := hp.mem_iff.mpr hmem2
    have hV : V1 = V2 := le_antisymm (hub2 _ hm12) (hub1 _ hm21)
    subst hV
    have hM : M2 = M1 :=
      ymdLex_connex _ _ (hatt1 _ hm21 rfl) (hatt2 _ hm12 rfl)
    rw [hst1, hst2, hM]

theorem pickMinStep_inv (tz : String) (i : ℕ)
    (cs : List (ℚ × (ℕ × ℕ × ℕ))) (st : Option ℚ × Option String)
    (r : OpenMeteoRow) (hval : (parseIsoDateL (trimL r.iso.toList)).isSome)
    (h : pickMinInv cs st) :
    pickMinInv (cs ++ (rowCand i false r).toList) (pickMinStep tz i st r) := by
  obtain ⟨x, hx⟩ := Option.isSome_iff_exists.mp hval
  obtain ⟨hne, hm1, hm2⟩ := parseIsoDateL_some _ _ hx
  have hisoNe : ¬ (String.mk (trimL r.iso.toList) = "") := by
    intro hcon
    exact hne (congrArg String.data hcon)
  have hfmt : fmtIsoToPrettyDate (String.mk (trimL r.iso.toList)) tz =
      some (fmtPretty x) := by
    show (parseIsoDateL (trimL r.iso.toList)).map fmtPretty = _
    rw [hx]
    rfl
  rcases hcell : toNumCell (r.vals.get? i) with _ | n
  · have hstep : pickMinStep tz i st r = st := by
      simp only [pickMinStep, if_neg hisoNe, hcell]
    have hcand : rowCand i false r = none := by
      simp only [rowCand, if_neg hne, hcell]
    rw [hstep, hcand]
    simpa using h
  · have hcand : rowCand i false r = some (n, x) := by
      simp only [rowCand, if_neg hne, hcell, hx]
      rfl
    rw [hcand]
    rcases h with ⟨hcs, hst⟩ | ⟨V, M, hst, hM1, hM2, hmem, hub, hatt⟩
    · subst hcs
      have hstep : pickMinStep tz i st r = (some n, some (fmtPretty x)) := by
        simp only [pickMinStep, if_neg hisoNe, hcell, hst, hfmt]
      rw [hstep]
      exact Or.inr ⟨n, x, rfl, hm1, hm2, by simp, by simp,
        by simpa using ymdLex_irrefl x⟩
    · by_cases hgt : n < V
      · have hstep : pickMinStep tz i st r = (some n, some (fmtPretty x)) := by
          simp only [pickMinStep, if_neg hisoNe, hcell, hst, hfmt, if_pos hgt]
        rw [hstep]
        refine Or.inr ⟨n, x, rfl, hm1, hm2, by simp, ?_, ?_⟩
        · intro c hc
          rcases List.mem_append.mp hc with hc2 | hc2
          · exact le_of_lt (lt_of_lt_of_le hgt (hub c hc2))
          · simp at hc2; simp [hc2]
        · intro c hc hceq
          rcases List.mem_append.mp hc with hc2 | hc2
          · exact absurd hceq.symm (ne_of_lt (lt_of_lt_of_le hgt (hub c hc2)))
          · simp at hc2
            subst hc2
            simpa using ymdLex_irrefl x
      · by_cases heq : n = V
        · have hbdne : fmtPretty M ≠ "" := fmtPretty_ne_empty M
          have hcandne : fmtPretty x ≠ "" := fmtPretty_ne_empty x
          have hbefore : momentPrettyIsBefore (fmtPretty x) (fmtPretty M) =
              decide (ymdLex x M) :=
            momentPrettyIsBefore_fmt x M hm1 hm2 hM1 hM2
          by_cases hlt : ymdLex x M
          · have hstep : pickMinStep tz i st r =
                (some V, some (fmtPretty x)) := by
              simp only [pickMinStep, if_neg hisoNe, hcell, hst, hfmt,
                if_neg hgt, if_pos (And.intro heq hbdne), hbefore]
              simp [hlt, hcandne]
            rw [hstep]
            refine Or.inr ⟨V, x, rfl, hm1, hm2, ?_, ?_, ?_⟩
            · exact List.mem_append.mpr (Or.inr (by simp [heq]))
            · intro c hc
              rcases List.mem_append.mp hc with hc2 | hc2
              · exact hub c hc2
              · simp at hc2; simp [hc2, heq.ge]
            · intro c hc hceq
              rcases List.mem_append.mp hc with hc2 | hc2
              · exact ymdLex_shift c.2 x M hlt (hatt c hc2 hceq)
              · simp at hc2
                subst hc2
                simpa using ymdLex_irrefl x
          · have hstep : pickMinStep tz i st r = st := by
              simp only [pickMinStep, if_neg hisoNe, hcell, hst, hfmt,
                if_neg hgt, if_pos (And.intro heq hbdne), hbefore]
              simp [hlt]
            rw [hstep, hst]
            refine Or.inr ⟨V, M, rfl, hM1, hM2,
              List.mem_append.mpr (Or.inl hmem), ?_, ?_⟩
            · intro c hc
              rcases List.mem_append.mp hc with hc2 | hc2
              · exact hub c hc2
              · simp at hc2; simp [hc2, heq.ge]
            · intro c hc hceq
              rcases List.mem_append.mp hc with hc2 | hc2
              · exact hatt c hc2 hceq
              · simp at hc2
                subst hc2
                simpa using hlt
        · have hlt2 : V < n := lt_of_le_of_ne (le_of_not_lt hgt)
            (fun hcon => heq hcon.symm)
          have hstep : pickMinStep tz i st r = st := by
            simp only [pickMinStep, if_neg hisoNe, hcell, hst, hfmt,
              if_neg hgt]
            simp [heq]
          rw [hstep, hst]
          refine Or.inr ⟨V, M, rfl, hM1, hM2,
            List.mem_append.mpr (Or.inl hmem), ?_, ?_⟩
          · intro c hc
            rcases List.mem_append.mp hc with hc2 | hc2
            · exact hub c hc2
            · simp at hc2; simp [hc2]; exact le_of_lt hlt2
          · intro c hc hceq
            rcases List.mem_append.mp hc with hc2 | hc2
            · exact hatt c hc2 hceq
            · simp at hc2
              subst hc2
              simp only at hceq
              exact absurd hceq heq

theorem pickMin_fold_inv (tz : String) (i : ℕ) :
    ∀ (rows : List OpenMeteoRow) (st : Option ℚ × Option String)
      (cs : List (ℚ × (ℕ × ℕ × ℕ))),
      (∀ r ∈ rows, (parseIsoDateL (trimL r.iso.toList)).isSome) →
      pickMinInv cs st →
      pickMinInv (cs ++ rowCands i false rows)
        (rows.foldl (pickMinStep tz i) st) := by
  intro rows
  induction rows with
  | nil => intro st cs hv h; simpa [rowCands] using h
  | cons r t ih =>
    intro st cs hv h
    have h2 := pickMinStep_inv tz i cs st r (hv r (by simp)) h
    have h3 := ih (pickMinStep tz i st r) _
      (fun r2 hr2 => hv r2 (by simp [hr2])) h2
    have e : rowCands i false (r :: t) =
        (rowCand i false r).toList ++ rowCands i false t := by
      rcases hc : rowCand i false r with _ | c <;> simp [rowCands, hc]
    rw [List.foldl_cons, e, ← List.append_assoc]
    exact h3

theorem pickMin_state_inv (tz : String) (i : ℕ) (rows : List OpenMeteoRow)
    (hv : ∀ r ∈ rows, (parseIsoDateL (trimL r.iso.toList)).isSome) :
    pickMinInv (rowCands i false rows) (pickMinWithDate rows tz (some i)) := by
  have h := pickMin_fold_inv tz i rows (none, none) [] hv (Or.inl ⟨rfl, rfl⟩)
  simpa [pickMinWithDate] using h

theorem pickMinInv_unique (cs1 cs2 : List (ℚ × (ℕ × ℕ × ℕ)))
    (st1 st2 : Option ℚ × Option String) (hp : cs1.Perm cs2)
    (h1 : pickMinInv cs1 st1) (h2 : pickMinInv cs2 st2) : st1 = st2 := by
  rcases h1 with ⟨hcs1, hst1⟩ | ⟨V1, M1, hst1, _, _, hmem1, hub1, hatt1⟩ <;>
    rcases h2 with ⟨hcs2, hst2⟩ | ⟨V2, M2, hst2, _, _, hmem2, hub2, hatt2⟩
  · rw [hst1, hst2]
  · exact absurd (hp.mem_iff.mpr hmem2) (by simp [hcs1])
  · exact absurd (hp.mem_iff.mp hmem1) (by simp [hcs2])
  · have hm12 := hp.mem_iff.mp hmem1
    have hm21 := hp.mem_iff.mpr hmem2
    have hV : V1 = V2 := le_antisymm (hub1 _ hm21) (hub2 _ hm12)
    subst hV
    have hM : M2 = M1 :=
      ymdLex_connex _ _ (hatt1 _ hm21 rfl) (hatt2 _ hm12 rfl)
    rw [hst1, hst2, hM]

theorem pickMaxStep_shape (tz : String) (i : ℕ) (reqPos : Bool)
    (st : Option ℚ × Option String) (r : OpenMeteoRow) :
    pickMaxStep tz i reqPos st r = st ∨
    ∃ q o, pickMaxStep tz i reqPos st r = (some q, o) := by
  unfold pickMaxStep
  dsimp only
  split
  · exact Or.inl rfl
  · split
    · exact Or.inl rfl
    · split
      · exact Or.inl rfl
      · split
        · exact Or.inr ⟨_, _, rfl⟩
        · split
          · exact Or.inr ⟨_, _, rfl⟩
          · split
            · split
              · split
                · split
                  · exact Or.inr ⟨_, _, rfl⟩
                  · exact Or.inl rfl
                · exact Or.inl rfl
              · exact Or.inl rfl
            · exact Or.inl rfl

theorem pickMinStep_shape (tz : String) (i : ℕ)
    (st : Option ℚ × Option String) (r : OpenMeteoRow) :
    pickMinStep tz i st r = st ∨
    ∃ q o, pickMinStep tz i st r = (some q, o) := by
  unfold pickMinStep
  dsimp only
  split
  · exact Or.inl rfl
  · split
    · exact Or.inl rfl
    · split
      · exact Or.inr ⟨_, _, rfl⟩
      · split
        · exact Or.inr ⟨_, _, rfl⟩
        · split
          · split
            · split
              · split
                · exact Or.inr ⟨_, _, rfl⟩
                · exact Or.inl rfl
              · exact Or.inl rfl
            · exact Or.inl rfl
          · exact Or.inl rfl

theorem pickMax_fold_none (tz : String) (i : ℕ) (reqPos : Bool) :
    ∀ (rows : List OpenMeteoRow) (st : Option ℚ × Option String),
      (st.1 = none → st.2 = none) →
      ((rows.foldl (pickMaxStep tz i reqPos) st).1 = none →
        (rows.foldl (pickMaxStep tz i reqPos) st).2 = none) := by
  intro rows
  induction rows with
  | nil => intro st h; exact h
  | cons r t ih =>
    intro st h
    rw [List.foldl_cons]
    refine ih _ ?_
    rcases pickMaxStep_shape tz i reqPos st r with hs | ⟨q, o, hs⟩
    · rw [hs]; exact h
    · rw [hs]; intro hc; cases hc

theorem pickMin_fold_none (tz : String) (i : ℕ) :
    ∀ (rows : List OpenMeteoRow) (st : Option ℚ × Option String),
      (st.1 = none → st.2 = none) →
      ((rows.foldl (pickMinStep tz i) st).1 = none →
        (rows.foldl (pickMinStep tz i) st).2 = none) := by
  intro rows
  induction rows with
  | nil => intro st h; exact h
  | cons r t ih =>
    intro st h
    rw [List.foldl_cons]
    refine ih _ ?_
    rcases pickMinStep_shape tz i st r with hs | ⟨q, o, hs⟩
    · rw [hs]; exact h
    · rw [hs]; intro hc; cases hc

unseal Rat.add Rat.mul Rat.inv Rat.sub in
/-- C5 counterexample: a row whose cell is `null` is coerced by `toNum` to 0,
so the pick can return a value (0) that no row reported as a finite value,
with that row's date, instead of the extreme finite value -5 with its date. -/
theorem C5_null_cell_counterexample :
    pickMaxWithDate
        [⟨"2020-07-01", [JSVal.num (-5)]⟩, ⟨"2020-07-15", [JSVal.null]⟩]
        "UTC" (some 0) false = (some 0, some "15th Jul 2020") ∧
    pickMaxWithDate
        [⟨"2020-07-01", [JSVal.num (-5)]⟩, ⟨"2020-07-15", [JSVal.null]⟩]
        "UTC" (some 0) false ≠ (some (-5), some "1st Jul 2020") := by
  refine ⟨by decide, by decide⟩

unseal Rat.add Rat.mul Rat.inv Rat.sub in
/-- C5 amended: over the code's own candidate coercion (`toNum`, under which
a `null` or missing cell counts as 0), and for rows whose date strings parse,
`pickMaxWithDate` returns the largest candidate value with the pretty-printed
chronologically earliest date among the candidates attaining it;
`pickMinWithDate` dually; both are invariant under permutation of the rows;
and the specification's tie-break scenario (two days with
`precipitation_sum = 50` on 2020-07-01 and 2020-07-15) resolves to
`"1st Jul 2020"`. -/
theorem C5_pick_extreme_with_tiebreak_amended :
    (∀ (rows : List OpenMeteoRow) (tz : String) (i : ℕ) (reqPos : Bool),
       (∀ r ∈ rows, (parseIsoDateL (trimL r.iso.toList)).isSome) →
       (rowCands i reqPos rows = [] →
         pickMaxWithDate rows tz (some i) reqPos = (none, none)) ∧
       (rowCands i reqPos rows ≠ [] → ∃ V M,
         pickMaxWithDate rows tz (some i) reqPos =
           (some V, some (fmtPretty M)) ∧
         (V, M) ∈ rowCands i reqPos rows ∧
         (∀ c ∈ rowCands i reqPos rows, c.1 ≤ V) ∧
         (∀ c ∈ rowCands i reqPos rows, c.1 = V → ¬ ymdLex c.2 M))) ∧
    (∀ (rows : List OpenMeteoRow) (tz : String) (i : ℕ),
       (∀ r ∈ rows, (parseIsoDateL (trimL r.iso.toList)).isSome) →
       (rowCands i false rows = [] →
         pickMinWithDate rows tz (some i) = (none, none)) ∧
       (rowCands i false rows ≠ [] → ∃ V M,
         pickMinWithDate rows tz (some i) = (some V, some (fmtPretty M)) ∧
         (V, M) ∈ rowCands i false rows ∧
         (∀ c ∈ rowCands i false rows, V ≤ c.1) ∧
         (∀ c ∈ rowCands i false rows, c.1 = V → ¬ ymdLex c.2 M))) ∧
    (∀ (rows1 rows2 : List OpenMeteoRow) (tz : String) (i : ℕ)
       (reqPos : Bool),
       (∀ r ∈ rows1, (parseIsoDateL (trimL r.iso.toList)).isSome) →
       rows1.Perm rows2 →
       pickMaxWithDate rows1 tz (some i) reqPos =
         pickMaxWithDate rows2 tz (some i) reqPos ∧
       pickMinWithDate rows1 tz (some i) =
         pickMinWithDate rows2 tz (some i)) ∧
    pickMaxWithDate
        [⟨"2020-07-01", [JSVal.num 50]⟩, ⟨"2020-07-15", [JSVal.num 50]⟩]
        "UTC" (some 0) true = (some 50, some "1st Jul 2020") := by
  refine ⟨?_, ?_, ?_, by decide⟩
  · intro rows tz i reqPos hv
    rcases pickMax_state_inv tz i reqPos rows hv with ⟨hcs, hst⟩ |
      ⟨V, M, hst, _, _, hmem, hub, hatt⟩
    · exact ⟨fun _ => hst, fun hne => absurd hcs hne⟩
    · refine ⟨fun hce => absurd (hce ▸ hmem) (List.not_mem_nil _), ?_⟩
      exact fun _ => ⟨V, M, hst, hmem, hub, hatt⟩
  · intro rows tz i hv
    rcases pickMin_state_inv tz i rows hv with ⟨hcs, hst⟩ |
      ⟨V, M, hst, _, _, hmem, hub, hatt⟩
    · exact ⟨fun _ => hst, fun hne => absurd hcs hne⟩
    · refine ⟨fun hce => absurd (hce ▸ hmem) (List.not_mem_nil _), ?_⟩
      exact fun _ => ⟨V, M, hst, hmem, hub, hatt⟩
  · intro rows1 rows2 tz i reqPos hv hp
    have hv2 : ∀ r ∈ rows2, (parseIsoDateL (trimL r.iso.toList)).isSome :=
      fun r hr => hv r (hp.mem_iff.mpr hr)
    constructor
    · exact pickMaxInv_unique _ _ _ _ (hp.filterMap _)
        (pickMax_state_inv tz i reqPos rows1 hv)
        (pickMax_state_inv tz i reqPos rows2 hv2)
    · exact pickMinInv_unique _ _ _ _ (hp.filterMap _)
        (pickMin_state_inv tz i rows1 hv)
        (pickMin_state_inv tz i rows2 hv2)

unseal Rat.add Rat.mul Rat.inv Rat.sub in
/-- Witness for the amended C5 at concrete inputs. -/
theorem C5_pick_extreme_with_tiebreak_amended_witness :
    pickMaxWithDate [⟨"2020-07-03", [JSVal.num 0]⟩] "UTC" (some 0) true =
      (none, none) ∧
    (∃ V M,
      pickMaxWithDate
          [⟨"2020-07-01", [JSVal.num 50]⟩, ⟨"2020-07-15", [JSVal.num 50]⟩]
          "UTC" (some 0) true = (some V, some (fmtPretty M)) ∧
      (V, M) ∈ rowCands 0 true
          [⟨"2020-07-01", [JSVal.num 50]⟩, ⟨"2020-07-15", [JSVal.num 50]⟩] ∧
      (∀ c ∈ rowCands 0 true
          [⟨"2020-07-01", [JSVal.num 50]⟩, ⟨"2020-07-15", [JSVal.num 50]⟩],
        c.1 ≤ V) ∧
      (∀ c ∈ rowCands 0 true
          [⟨"2020-07-01", [JSVal.num 50]⟩, ⟨"2020-07-15", [JSVal.num 50]⟩],
        c.1 = V → ¬ ymdLex c.2 M)) ∧
    (∃ V M,
      pickMinWithDate
          [⟨"2020-07-01", [JSVal.num 50]⟩, ⟨"2020-07-15", [JSVal.num 50]⟩]
          "UTC" (some 0) = (some V, some (fmtPretty M)) ∧
      (V, M) ∈ rowCands 0 false
          [⟨"2020-07-01", [JSVal.num 50]⟩, ⟨"2020-07-15", [JSVal.num 50]⟩] ∧
      (∀ c ∈ rowCands 0 false
          [⟨"2020-07-01", [JSVal.num 50]⟩, ⟨"2020-07-15", [JSVal.num 50]⟩],
        V ≤ c.1) ∧
      (∀ c ∈ rowCands 0 false
          [⟨"2020-07-01", [JSVal.num 50]⟩, ⟨"2020-07-15", [JSVal.num 50]⟩],
        c.1 = V → ¬ ymdLex c.2 M)) ∧
    (pickMaxWithDate
        [⟨"2020-07-01", [JSVal.num 50]⟩, ⟨"2020-07-15", [JSVal.num 50]⟩]
        "UTC" (some 0) true =
      pickMaxWithDate
        [⟨"2020-07-15", [JSVal.num 50]⟩, ⟨"2020-07-01", [JSVal.num 50]⟩]
        "UTC" (some 0) true ∧
     pickMinWithDate
        [⟨"2020-07-01", [JSVal.num 50]⟩, ⟨"2020-07-15", [JSVal.num 50]⟩]
        "UTC" (some 0) =
      pickMinWithDate
        [⟨"2020-07-15", [JSVal.num 50]⟩, ⟨"2020-07-01", [JSVal.num 50]⟩]
        "UTC" (some 0)) :=
  ⟨(C5_pick_extreme_with_tiebreak_amended.1 _ "UTC" 0 true (by decide)).1
      (by decide),
   (C5_pick_extreme_with_tiebreak_amended.1 _ "UTC" 0 true (by decide)).2
      (by decide),
   (C5_pick_extreme_with_tiebreak_amended.2.1 _ "UTC" 0 (by decide)).2
      (by decide),
   C5_pick_extreme_with_tiebreak_amended.2.2.1 _ _ "UTC" 0 true (by decide)
      (List.Perm.swap _ _ _)⟩

unseal Rat.add Rat.mul Rat.inv Rat.sub in
/-- C8 counterexample: for a row whose date string does not parse,
`pickMaxWithDate` returns a non-null value with a null date, violating the
claimed "date is null iff value is null" invariant. -/
theorem C8_invalid_date_counterexample :
    ¬ (((pickMaxWithDate [⟨"bad-date", [JSVal.num 5]⟩] "UTC" (some 0)
          false).1 = none) ↔
       ((pickMaxWithDate [⟨"bad-date", [JSVal.num 5]⟩] "UTC" (some 0)
          false).2 = none)) := by
  decide

/-- C8 amended: the strict window pickers always satisfy "value is null iff
date is null" (an unparseable date formats to the literal string
"Invalid date", not null); the intra-month pickers satisfy the null-value to
null-date direction unconditionally, and the full equivalence whenever every
row's date string parses. -/
theorem C8_record_pair_nullness_amended :
    (∀ (recs : List DailyRecord) (tz : String) (sy ey : Option ℚ)
       (rp : Bool),
       ((pickMaxStrict recs tz sy ey rp).1 = none ↔
        (pickMaxStrict recs tz sy ey rp).2 = none)) ∧
    (∀ (recs : List DailyRecord) (tz : String) (sy ey : Option ℚ),
       ((pickMinStrict recs tz sy ey).1 = none ↔
        (pickMinStrict recs tz sy ey).2 = none)) ∧
    (∀ (rows : List OpenMeteoRow) (tz : String) (idx : Option ℕ)
       (reqPos : Bool),
       (pickMaxWithDate rows tz idx reqPos).1 = none →
       (pickMaxWithDate rows tz idx reqPos).2 = none) ∧
    (∀ (rows : List OpenMeteoRow) (tz : String) (idx : Option ℕ),
       (pickMinWithDate rows tz idx).1 = none →
       (pickMinWithDate rows tz idx).2 = none) ∧
    (∀ (rows : List OpenMeteoRow) (tz : String) (i : ℕ) (reqPos : Bool),
       (∀ r ∈ rows, (parseIsoDateL (trimL r.iso.toList)).isSome) →
       ((pickMaxWithDate rows tz (some i) reqPos).1 = none ↔
        (pickMaxWithDate rows tz (some i) reqPos).2 = none)) ∧
    (∀ (rows : List OpenMeteoRow) (tz : String) (i : ℕ),
       (∀ r ∈ rows, (parseIsoDateL (trimL r.iso.toList)).isSome) →
       ((pickMinWithDate rows tz (some i)).1 = none ↔
        (pickMinWithDate rows tz (some i)).2 = none)) := by
  refine ⟨?_, ?_, ?_, ?_, ?_, ?_⟩
  · intro recs tz sy ey rp
    by_cases hemp : recs.isEmpty
    · simp [pickMaxStrict, hemp]
    · rcases hb : recs.foldl (pickMaxStrictStep sy ey rp) none with _ | b <;>
        simp [pickMaxStrict, hemp, hb]
  · intro recs tz sy ey
    by_cases hemp : recs.isEmpty
    · simp [pickMinStrict, hemp]
    · rcases hb : recs.foldl (pickMinStrictStep sy ey) none with _ | b <;>
        simp [pickMinStrict, hemp, hb]
  · intro rows tz idx reqPos
    rcases idx with _ | i
    · intro _; rfl
    · exact pickMax_fold_none tz i reqPos rows (none, none) (fun _ => rfl)
  · intro rows tz idx
    rcases idx with _ | i
    · intro _; rfl
    · exact pickMin_fold_none tz i rows (none, none) (fun _ => rfl)
  · intro rows tz i reqPos hv
    rcases pickMax_state_inv tz i reqPos rows hv with ⟨_, hst⟩ |
      ⟨V, M, hst, _, _, _, _, _⟩ <;> simp [hst]
  · intro rows tz i hv
    rcases pickMin_state_inv tz i rows hv with ⟨_, hst⟩ |
      ⟨V, M, hst, _, _, _, _, _⟩ <;> simp [hst]

unseal Rat.add Rat.mul Rat.inv Rat.sub in
/-- Witness for the amended C8 at concrete inputs. -/
theorem C8_record_pair_nullness_amended_witness :
    ((pickMaxStrict [⟨5, "bad"⟩] "UTC" none none false).1 = none ↔
     (pickMaxStrict [⟨5, "bad"⟩] "UTC" none none false).2 = none) ∧
    ((pickMinStrict [⟨5, "bad"⟩] "UTC" none none).1 = none ↔
     (pickMinStrict [⟨5, "bad"⟩] "UTC" none none).2 = none) ∧
    (pickMaxWithDate [] "UTC" (some 0) false).2 = none ∧
    (pickMinWithDate [] "UTC" (some 0)).2 = none ∧
    ((pickMaxWithDate [⟨"2020-07-01", [JSVal.num 50]⟩] "UTC" (some 0)
        false).1 = none ↔
     (pickMaxWithDate [⟨"2020-07-01", [JSVal.num 50]⟩] "UTC" (some 0)
        false).2 = none) ∧
    ((pickMinWithDate [⟨"2020-07-01", [JSVal.num 50]⟩] "UTC" (some 0)).1 =
        none ↔
     (pickMinWithDate [⟨"2020-07-01", [JSVal.num 50]⟩] "UTC" (some 0)).2 =
        none) :=
  ⟨C8_record_pair_nullness_amended.1 [⟨5, "bad"⟩] "UTC" none none false,
   C8_record_pair_nullness_amended.2.1 [⟨5, "bad"⟩] "UTC" none none,
   C8_record_pair_nullness_amended.2.2.1 [] "UTC" (some 0) false rfl,
   C8_record_pair_nullness_amended.2.2.2.1 [] "UTC" (some 0) rfl,
   C8_record_pair_nullness_amended.2.2.2.2.1
     [⟨"2020-07-01", [JSVal.num 50]⟩] "UTC" 0 false (by decide),
   C8_record_pair_nullness_amended.2.2.2.2.2
     [⟨"2020-07-01", [JSVal.num 50]⟩] "UTC" 0 (by decide)⟩
